import Mathlib

/-!
Verification of the partition/style-resolution engine of the
deephaven-plugin-plotly-express repository, as a shallow embedding in Lean.

Python data is embedded as explicit inductive values, mutable state as
explicit state passing, and exceptions as `Except PyErr`.  Table-engine
operations (deephaven) invoked by the source are modelled by their
documented semantics over in-memory row lists.
-/

set_option autoImplicit false

/-- Error kinds mirroring the Python exception classes that the embedded code
can raise.  `configurationError` exists so that the spec's claimed error class
can be stated and compared against what the code actually raises. -/
inductive PyErr where
  | stopIteration
  | configurationError
  | typeError (msg : String)
  | valueError (msg : String)
  | keyError (key : String)
  | attributeError (msg : String)
  | indexError (msg : String)
deriving DecidableEq, Repr

/-- Whether an error is a Python `TypeError`. -/
def PyErr.isTypeError : PyErr → Bool
  | PyErr.typeError _ => true
  | _ => false

/-! ## StyleManager (src/deephaven/plot/express/preprocess/StyleManager.py)

Keys queried against `assign_style` are the partition key tuples, embedded as
`List String`.  The explicit override map of the manager may be keyed either by
a whole tuple or by a scalar (the code checks `val in self.map` and then
`val[0] in self.map`), so map keys are embedded as a sum of both shapes. -/

/-- A key of the explicit style override map: either a whole key tuple or a
scalar value. -/
inductive MapKey where
  | tup (k : List String)
  | scalar (s : String)
deriving DecidableEq, Repr

/-- First-match association-list lookup, the embedding of Python dict lookup
(keys are inserted at most once, so first match is the match). -/
def assocLookup {κ α : Type} [DecidableEq κ] : List (κ × α) → κ → Option α
  | [], _ => none
  | (k, v) :: rest, key => if k = key then some v else assocLookup rest key

/-- State of a `StyleManager`: the style sequence `self.ls`, the override map
`self.map` (the empty list embeds both `None` and an empty dict, which are
equally falsy in the `if self.map` guards), the position of the `cycle`
iterator `self.cycled`, and the memo dict `self.found` in insertion order. -/
structure StyleManager (σ : Type) where
  ls : List σ
  map : List (MapKey × σ)
  cycleIdx : Nat
  found : List (List String × σ)
deriving DecidableEq, Repr

/-- Embedding of `StyleManager.__init__` applied to a list `ls` (a non-list
argument is wrapped into a one-element list by the source, so every manager
starts from some list): `cycle(self.ls)` starts at position 0 and the memo
starts empty. -/
def StyleManager.init {σ : Type} (ls : List σ) (map : List (MapKey × σ)) :
    StyleManager σ :=
  { ls := ls, map := map, cycleIdx := 0, found := [] }

/-- Embedding of `next(self.cycled)` for `self.cycled = cycle(self.ls)`:
yields `ls[idx % len(ls)]` and advances the iterator; on an empty underlying
list `next` raises `StopIteration`. -/
def StyleManager.nextCycled {σ : Type} (m : StyleManager σ) :
    Except PyErr (σ × StyleManager σ) :=
  match m.ls with
  | [] => Except.error PyErr.stopIteration
  | x :: _ =>
      Except.ok (m.ls.getD (m.cycleIdx % m.ls.length) x,
                 { m with cycleIdx := m.cycleIdx + 1 })

/-- The override step of `assign_style`: when the map is truthy (nonempty) and
contains the key tuple — or, for a length-1 tuple, its single element — the
mapped value replaces the cycled value `nv`. -/
def applyMapOverride {σ : Type} (mp : List (MapKey × σ)) (val : List String)
    (nv : σ) : σ :=
  match mp with
  | [] => nv
  | _ :: _ =>
      match assocLookup mp (MapKey.tup val) with
      | some w => w
      | none =>
          match val with
          | [s] => (assocLookup mp (MapKey.scalar s)).getD nv
          | _ => nv

/-- Embedding of `StyleManager.assign_style`: a memoized key returns its
memoized value; a new key first draws `next(self.cycled)`, then is overridden
by the explicit map when the map is truthy and contains the key (or, for
length-1 keys, the key's single element), and the result is memoized. -/
def StyleManager.assign_style {σ : Type} (m : StyleManager σ)
    (val : List String) : Except PyErr (σ × StyleManager σ) :=
  match assocLookup m.found val with
  | some v => Except.ok (v, m)
  | none =>
      match m.nextCycled with
      | Except.error e => Except.error e
      | Except.ok (nv, m1) =>
          let nv2 := applyMapOverride m1.map val nv
          Except.ok (nv2, { m1 with found := m1.found ++ [(val, nv2)] })

/-- Runs `assign_style` on a sequence of queried keys, collecting the answers
and the final manager state. -/
def StyleManager.runAssigns {σ : Type} (m : StyleManager σ) :
    List (List String) → Except PyErr (List σ × StyleManager σ)
  | [] => Except.ok ([], m)
  | q :: qs =>
      match m.assign_style q with
      | Except.error e => Except.error e
      | Except.ok (v, m1) =>
          match m1.runAssigns qs with
          | Except.error e => Except.error e
          | Except.ok (vs, m2) => Except.ok (v :: vs, m2)

/-- True when the explicit map would override the cycled value for key `q` in
`assign_style` (map truthy and containing the tuple, or containing the single
element of a length-1 tuple). -/
def overridesKey {σ : Type} (mp : List (MapKey × σ)) (q : List String) : Bool :=
  !mp.isEmpty &&
    ((assocLookup mp (MapKey.tup q)).isSome ||
      (match q with
       | [s] => (assocLookup mp (MapKey.scalar s)).isSome
       | _ => false))

theorem applyMapOverride_of_not_overrides {σ : Type} (mp : List (MapKey × σ))
    (q : List String) (nv : σ) (h : overridesKey mp q = false) :
    applyMapOverride mp q nv = nv := by
  cases mp with
  | nil => rfl
  | cons m ms =>
      simp only [overridesKey, List.isEmpty_cons, Bool.not_false, Bool.true_and,
        Bool.or_eq_false_iff] at h
      rcases h with ⟨htup, hscal⟩
      have htup' : assocLookup (m :: ms) (MapKey.tup q) = none := by
        cases h' : assocLookup (m :: ms) (MapKey.tup q) with
        | none => rfl
        | some w => rw [h'] at htup; simp at htup
      match q, hscal with
      | [], _ => simp [applyMapOverride, htup']
      | [a], hscal =>
          have hs : (assocLookup (m :: ms) (MapKey.scalar a)).isSome = false := hscal
          have hs' : assocLookup (m :: ms) (MapKey.scalar a) = none := by
            cases h' : assocLookup (m :: ms) (MapKey.scalar a) with
            | none => rfl
            | some w => rw [h'] at hs; simp at hs
          simp [applyMapOverride, htup', hs']
      | a :: b :: bs, _ => simp [applyMapOverride, htup']

/-- Index of the first occurrence of an element in a list (length of the list
when absent). -/
def firstIdx {α : Type} [DecidableEq α] : List α → α → Nat
  | [], _ => 0
  | x :: xs, a => if x = a then 0 else firstIdx xs a + 1

/-- Inserting a key into the list of keys seen so far, keeping first-seen
order and dropping repeats. -/
def seenInsert {α : Type} [DecidableEq α] (seen : List α) (q : α) : List α :=
  if q ∈ seen then seen else seen ++ [q]

/-- The distinct keys of a query sequence in first-seen order, continuing from
an already-seen prefix. -/
def distinctSeen {α : Type} [DecidableEq α] (seen : List α) : List α → List α
  | [] => seen
  | q :: qs => distinctSeen (seenInsert seen q) qs

/-- The specified answers of a run of `assign_style` queries: the answer for a
query `q` is `S[i % len S]` where `i` is the first-seen position of `q` among
the distinct keys queried so far (`d` is an arbitrary default never reached
when `S` is nonempty). -/
def cycleSpec {σ : Type} (d : σ) (S : List σ) (seen : List (List String)) :
    List (List String) → List σ
  | [] => []
  | q :: qs =>
      let seen' := seenInsert seen q
      S.getD (firstIdx seen' q % S.length) d :: cycleSpec d S seen' qs

/-- The memo contents after the distinct keys of `seen` (starting at cycle
position `i`) have each been assigned a cycled style. -/
def foundOfAux {σ : Type} (d : σ) (S : List σ) (i : Nat) :
    List (List String) → List (List String × σ)
  | [] => []
  | q :: qs => (q, S.getD (i % S.length) d) :: foundOfAux d S (i + 1) qs

/-- The manager state after the distinct keys `seen` have been assigned, with
no map override involved: the cycle iterator has advanced once per distinct
key and the memo holds `S[i % len S]` for the i-th distinct key. -/
def memoState {σ : Type} (d : σ) (S : List σ) (mp : List (MapKey × σ))
    (seen : List (List String)) : StyleManager σ :=
  { ls := S, map := mp, cycleIdx := seen.length, found := foundOfAux d S 0 seen }

theorem assocLookup_foundOfAux {σ : Type} (d : σ) (S : List σ)
    (q : List String) :
    ∀ (seen : List (List String)) (i : Nat),
      assocLookup (foundOfAux d S i seen) q
        = if q ∈ seen then some (S.getD ((i + firstIdx seen q) % S.length) d)
          else none := by
  intro seen
  induction seen with
  | nil => intro i; simp [foundOfAux, assocLookup]
  | cons s ss ih =>
      intro i
      by_cases hq : s = q
      · subst hq
        simp [foundOfAux, assocLookup, firstIdx]
      · have hmem : (q ∈ s :: ss) ↔ (q ∈ ss) :=
          ⟨fun h => (List.mem_cons.mp h).resolve_left (fun h' => hq h'.symm),
           fun h => List.mem_cons.mpr (Or.inr h)⟩
        simp only [foundOfAux, assocLookup, if_neg hq, ih (i + 1)]
        by_cases hss : q ∈ ss
        · simp only [hss, if_true, hmem.mpr hss, firstIdx, if_neg hq]
          have harith : i + 1 + firstIdx ss q = i + (firstIdx ss q + 1) := by omega
          rw [harith]
        · simp only [hss, if_false]
          rw [if_neg (fun h => hss (hmem.mp h))]

theorem foundOfAux_append {σ : Type} (d : σ) (S : List σ) (q : List String) :
    ∀ (seen : List (List String)) (i : Nat),
      foundOfAux d S i (seen ++ [q])
        = foundOfAux d S i seen ++ [(q, S.getD ((i + seen.length) % S.length) d)] := by
  intro seen
  induction seen with
  | nil => intro i; simp [foundOfAux]
  | cons s ss ih =>
      intro i
      have h1 : foundOfAux d S i ((s :: ss) ++ [q])
          = (s, S.getD (i % S.length) d) :: foundOfAux d S (i + 1) (ss ++ [q]) := rfl
      have h2 : foundOfAux d S i (s :: ss)
          = (s, S.getD (i % S.length) d) :: foundOfAux d S (i + 1) ss := rfl
      rw [h1, h2, ih (i + 1)]
      have harith : i + 1 + ss.length = i + (s :: ss).length := by
        simp only [List.length_cons]; omega
      rw [harith]
      rfl

theorem firstIdx_append_self {α : Type} [DecidableEq α] (q : α) :
    ∀ (l : List α), q ∉ l → firstIdx (l ++ [q]) q = l.length := by
  intro l
  induction l with
  | nil => intro _; simp [firstIdx]
  | cons x xs ih =>
      intro h
      have hx : x ≠ q := fun h' => h (h' ▸ List.mem_cons_self x xs)
      have h1 : firstIdx ((x :: xs) ++ [q]) q = firstIdx (xs ++ [q]) q + 1 := by
        simp only [List.cons_append, firstIdx, if_neg hx]
        rfl
      rw [h1, ih (fun h' => h (List.mem_cons_of_mem x h')), List.length_cons]

theorem getD_eq_of_lt {σ : Type} (S : List σ) (d d' : σ) (n : Nat)
    (h : n < S.length) : S.getD n d = S.getD n d' := by
  rw [List.getD_eq_getElem S d h, List.getD_eq_getElem S d' h]

theorem assign_style_found {σ : Type} (m : StyleManager σ) (q : List String)
    (v : σ) (h : assocLookup m.found q = some v) :
    m.assign_style q = Except.ok (v, m) := by
  simp only [StyleManager.assign_style, h]

theorem assign_style_not_found {σ : Type} (ls : List σ)
    (mp : List (MapKey × σ)) (ci : Nat) (fnd : List (List String × σ))
    (q : List String) (x : σ) (xs : List σ) (hls : ls = x :: xs)
    (h : assocLookup fnd q = none) :
    StyleManager.assign_style ⟨ls, mp, ci, fnd⟩ q
      = Except.ok (applyMapOverride mp q (ls.getD (ci % ls.length) x),
          ⟨ls, mp, ci + 1,
           fnd ++ [(q, applyMapOverride mp q (ls.getD (ci % ls.length) x))]⟩) := by
  subst hls
  simp only [StyleManager.assign_style, StyleManager.nextCycled, h]

theorem runAssigns_memoState {σ : Type} (d : σ) (S : List σ)
    (mp : List (MapKey × σ)) (hS : S ≠ []) :
    ∀ (qs : List (List String)) (seen : List (List String)),
      (∀ q ∈ qs, overridesKey mp q = false) →
      StyleManager.runAssigns (memoState d S mp seen) qs
        = Except.ok (cycleSpec d S seen qs, memoState d S mp (distinctSeen seen qs)) := by
  intro qs
  induction qs with
  | nil => intro seen _; simp [StyleManager.runAssigns, cycleSpec, distinctSeen]
  | cons q qs ih =>
      intro seen hov
      have hovq : overridesKey mp q = false := hov q (List.mem_cons_self q qs)
      have hovqs : ∀ p ∈ qs, overridesKey mp p = false :=
        fun p hp => hov p (List.mem_cons_of_mem q hp)
      have hlen : 0 < S.length := List.length_pos.mpr hS
      have hfound := assocLookup_foundOfAux d S q seen 0
      simp only [Nat.zero_add] at hfound
      by_cases hmem : q ∈ seen
      · -- memoized key: the stored value is returned and the state is unchanged
        have hins : seenInsert seen q = seen := by simp [seenInsert, hmem]
        have hfq : assocLookup (memoState d S mp seen).found q
            = some (S.getD (firstIdx seen q % S.length) d) := by
          show assocLookup (foundOfAux d S 0 seen) q = _
          rw [hfound, if_pos hmem]
        have hassign := assign_style_found (memoState d S mp seen) q _ hfq
        simp only [StyleManager.runAssigns, hassign, ih seen hovqs,
          cycleSpec, distinctSeen, hins]
      · -- new key: the next cycled value is drawn and memoized
        obtain ⟨x, xs, hSx⟩ : ∃ x xs, S = x :: xs := by
          cases S with
          | nil => exact absurd rfl hS
          | cons x xs => exact ⟨x, xs, rfl⟩
        have hmod : seen.length % S.length < S.length := Nat.mod_lt _ hlen
        have hfq : assocLookup (foundOfAux d S 0 seen) q = none := by
          rw [hfound, if_neg hmem]
        have hassign := assign_style_not_found S mp seen.length
          (foundOfAux d S 0 seen) q x xs hSx hfq
        rw [applyMapOverride_of_not_overrides mp q _ hovq,
          getD_eq_of_lt S x d _ hmod] at hassign
        have hstate :
            (⟨S, mp, seen.length + 1,
              foundOfAux d S 0 seen ++ [(q, S.getD (seen.length % S.length) d)]⟩ :
                StyleManager σ)
              = memoState d S mp (seen ++ [q]) := by
          have hfa := foundOfAux_append d S q seen 0
          simp only [Nat.zero_add] at hfa
          simp only [memoState, hfa, List.length_append, List.length_cons,
            List.length_nil]
        have hrec : memoState d S mp seen
            = (⟨S, mp, seen.length, foundOfAux d S 0 seen⟩ : StyleManager σ) := rfl
        have hins : seenInsert seen q = seen ++ [q] := by simp [seenInsert, hmem]
        have hspec : firstIdx (seen ++ [q]) q = seen.length :=
          firstIdx_append_self q seen hmem
        simp only [StyleManager.runAssigns, hrec, hassign, hstate,
          ih (seen ++ [q]) hovqs, cycleSpec, distinctSeen, hins, hspec]

/-- C1: for a `StyleManager` built from a nonempty style sequence `S` and a
map that never overrides any queried key, every run of `assign_style` queries
succeeds; the i-th distinct key ever queried is answered with `S[i % len S]`
(as recorded by `cycleSpec`), repeat queries of a key reuse that key's
first-assigned value without advancing the cycle, and the final state has
advanced the cycle exactly once per distinct key (as recorded by
`memoState`). -/
theorem styleManager_cycles_and_memoizes {σ : Type} (d : σ) (S : List σ)
    (mp : List (MapKey × σ)) (qs : List (List String)) (hS : S ≠ [])
    (hov : ∀ q ∈ qs, overridesKey mp q = false) :
    StyleManager.runAssigns (StyleManager.init S mp) qs
      = Except.ok (cycleSpec d S [] qs, memoState d S mp (distinctSeen [] qs)) := by
  have h0 : StyleManager.init S mp = memoState d S mp [] := rfl
  rw [h0, runAssigns_memoState d S mp hS qs [] hov]

theorem assign_style_ok_of_ne_nil {σ : Type} (m : StyleManager σ)
    (q : List String) (h : m.ls ≠ []) :
    ∃ v m', m.assign_style q = Except.ok (v, m') ∧ m'.ls = m.ls := by
  obtain ⟨ls, mp, ci, fnd⟩ := m
  cases hf : assocLookup fnd q with
  | some v => exact ⟨v, _, assign_style_found ⟨ls, mp, ci, fnd⟩ q v hf, rfl⟩
  | none =>
      obtain ⟨x, xs, hx⟩ : ∃ x xs, ls = x :: xs := by
        cases ls with
        | nil => exact absurd rfl h
        | cons x xs => exact ⟨x, xs, rfl⟩
      exact ⟨_, _, assign_style_not_found ls mp ci fnd q x xs hx hf, rfl⟩

theorem runAssigns_ok_of_ne_nil {σ : Type} :
    ∀ (qs : List (List String)) (m : StyleManager σ), m.ls ≠ [] →
      ∃ r, m.runAssigns qs = Except.ok r := by
  intro qs
  induction qs with
  | nil => intro m _; exact ⟨([], m), rfl⟩
  | cons q qs ih =>
      intro m h
      obtain ⟨v, m', hstep, hls⟩ := assign_style_ok_of_ne_nil m q h
      obtain ⟨⟨vs, m2⟩, hrest⟩ := ih m' (hls ▸ h)
      refine ⟨(v :: vs, m2), ?_⟩
      simp only [StyleManager.runAssigns, hstep, hrest]

/-- C7 (amended): constructing a `StyleManager` from an empty style sequence
succeeds, and it is the first `assign_style` of any key that fails — with
`StopIteration` from the exhausted `cycle` iterator, not with a
`ConfigurationError` (no such error exists in the code); for every nonempty
style sequence, `assign_style` never raises over any run of queries. -/
theorem styleManager_empty_sequence_stopIteration {σ : Type} :
    (∀ (mp : List (MapKey × σ)) (q : List String),
        StyleManager.assign_style (StyleManager.init ([] : List σ) mp) q
          = Except.error PyErr.stopIteration) ∧
    (∀ (S : List σ) (mp : List (MapKey × σ)) (qs : List (List String)),
        S ≠ [] →
        ∃ r, StyleManager.runAssigns (StyleManager.init S mp) qs = Except.ok r) := by
  constructor
  · intro mp q; rfl
  · intro S mp qs hS
    exact runAssigns_ok_of_ne_nil qs (StyleManager.init S mp) hS

/-- Witness for C7 (amended) at concrete inputs: assignment against the empty
sequence raises `StopIteration`, and a two-query run against the sequence
`["red"]` succeeds. -/
theorem styleManager_empty_sequence_stopIteration_witness :
    StyleManager.assign_style (StyleManager.init ([] : List String) []) [""]
      = Except.error PyErr.stopIteration ∧
    ∃ r, StyleManager.runAssigns
        (StyleManager.init ["red"] ([] : List (MapKey × String))) [["a"], ["b"]]
      = Except.ok r :=
  ⟨styleManager_empty_sequence_stopIteration.1 [] [""],
   styleManager_empty_sequence_stopIteration.2 ["red"] [] [["a"], ["b"]] (by decide)⟩

/-- Counterexample to C7 as stated: with an empty style sequence, construction
succeeds and the first assignment raises `StopIteration`, which is not the
`ConfigurationError` the claim names. -/
theorem styleManager_empty_sequence_counterexample :
    StyleManager.assign_style (StyleManager.init ([] : List String) []) ["a"]
      = Except.error PyErr.stopIteration ∧
    PyErr.stopIteration ≠ PyErr.configurationError :=
  ⟨rfl, by decide⟩

/-- Witness for C1 at a concrete run: sequence of two styles, four queries
with one repeat; the repeat reuses the first assignment and the third distinct
key wraps around the cycle. -/
theorem styleManager_cycles_and_memoizes_witness :
    StyleManager.runAssigns (StyleManager.init ["red", "blue"] []) [["a"], ["b"], ["a"], ["c"]]
      = Except.ok (cycleSpec "z" ["red", "blue"] [] [["a"], ["b"], ["a"], ["c"]],
          memoState "z" ["red", "blue"] [] (distinctSeen [] [["a"], ["b"], ["a"], ["c"]])) :=
  styleManager_cycles_and_memoizes "z" ["red", "blue"] [] [["a"], ["b"], ["a"], ["c"]]
    (by decide) (by decide)

/-! ## Table model

Deephaven tables are embedded as a column schema (name and `data_type.j_name`)
together with a list of rows, a row being an association list from column name
to cell value.  Table operations invoked by the source (`update_view`,
`merge`, `drop_columns`, `view`, `count_by`, `partition_by`, ...) are embedded
by their documented row-level semantics. -/

/-- A cell of a deephaven column: null, a string, or an integral value. -/
inductive Cell where
  | cNone
  | cStr (s : String)
  | cInt (n : Int)
deriving DecidableEq, Repr

/-- A table row: an association list from column name to cell. -/
abbrev Row := List (String × Cell)

/-- Value of a column in a row. -/
def Row.get? (r : Row) (c : String) : Option Cell := assocLookup r c

/-- Setting a column of a row: replaces the existing binding in place or
appends a new one (the semantics of `update_view` on one row). -/
def Row.setCol : Row → String → Cell → Row
  | [], c, v => [(c, v)]
  | (k, w) :: rest, c, v =>
      if k = c then (c, v) :: rest else (k, w) :: Row.setCol rest c v

/-- Removing a set of columns from a row (the semantics of `drop_columns` on
one row). -/
def Row.dropCols (r : Row) (cols : List String) : Row :=
  r.filter (fun p => !(decide (p.1 ∈ cols)))

/-- A deephaven table. -/
structure Table where
  schema : List (String × String)
  rows : List Row
deriving DecidableEq, Repr

/-- The column names of a table. -/
def Table.colNames (t : Table) : List String := t.schema.map Prod.fst

/-- Embedding of `table.update_view("name = <formula>")`: each row gains (or
replaces) the column `name`, whose value is the formula evaluated on that row;
a new column is appended to the schema with an unspecified computed type. -/
def Table.updateViewWith (t : Table) (name : String) (f : Row → Cell) : Table :=
  { schema := if name ∈ t.colNames then t.schema else t.schema ++ [(name, "computed")],
    rows := t.rows.map (fun r => r.setCol name (f r)) }

/-- Embedding of `deephaven.merge`: concatenates the rows of same-schema
tables in order. -/
def mergeTables (ts : List Table) : Table :=
  { schema := (ts.headD ⟨[], []⟩).schema,
    rows := (ts.map Table.rows).flatten }

/-- Embedding of `table.drop_columns(cols)`. -/
def Table.drop_columns (t : Table) (cols : List String) : Table :=
  { schema := t.schema.filter (fun p => !(decide (p.1 ∈ cols))),
    rows := t.rows.map (fun r => r.dropCols cols) }

theorem Row.get?_cons (k : String) (w : Cell) (l : Row) (c : String) :
    Row.get? ((k, w) :: l) c = if k = c then some w else Row.get? l c := rfl

theorem Row.setCol_cons (k : String) (w : Cell) (l : Row) (c : String)
    (v : Cell) :
    Row.setCol ((k, w) :: l) c v
      = if k = c then (c, v) :: l else (k, w) :: Row.setCol l c v := rfl

theorem Row.dropCols_cons (k : String) (w : Cell) (l : Row)
    (cols : List String) :
    Row.dropCols ((k, w) :: l) cols
      = if k ∈ cols then l.dropCols cols else (k, w) :: l.dropCols cols := by
  by_cases hk : k ∈ cols
  · simp [Row.dropCols, List.filter_cons, hk]
  · simp [Row.dropCols, List.filter_cons, hk]

theorem Row.get?_setCol_self (r : Row) (c : String) (v : Cell) :
    (r.setCol c v).get? c = some v := by
  induction r with
  | nil => simp [Row.setCol, Row.get?, assocLookup]
  | cons p rest ih =>
      obtain ⟨k, w⟩ := p
      by_cases hk : k = c
      · rw [Row.setCol_cons, if_pos hk, Row.get?_cons, if_pos rfl]
      · rw [Row.setCol_cons, if_neg hk, Row.get?_cons, if_neg hk]
        exact ih

theorem Row.get?_setCol_ne (r : Row) (c c' : String) (v : Cell)
    (h : c ≠ c') : (r.setCol c v).get? c' = r.get? c' := by
  induction r with
  | nil => simp [Row.setCol, Row.get?, assocLookup, h]
  | cons p rest ih =>
      obtain ⟨k, w⟩ := p
      by_cases hk : k = c
      · rw [Row.setCol_cons, if_pos hk, Row.get?_cons, if_neg h,
          Row.get?_cons, if_neg (hk ▸ h : k ≠ c')]
      · by_cases hk' : k = c'
        · rw [Row.setCol_cons, if_neg hk, Row.get?_cons, if_pos hk',
            Row.get?_cons, if_pos hk']
        · rw [Row.setCol_cons, if_neg hk, Row.get?_cons, if_neg hk',
            Row.get?_cons, if_neg hk']
          exact ih

theorem Row.get?_dropCols_mem (r : Row) (cols : List String) (c : String)
    (h : c ∈ cols) : (r.dropCols cols).get? c = none := by
  induction r with
  | nil => rfl
  | cons p rest ih =>
      obtain ⟨k, w⟩ := p
      by_cases hk : k ∈ cols
      · rw [Row.dropCols_cons, if_pos hk]
        exact ih
      · have hkc : k ≠ c := fun h' => hk (h' ▸ h)
        rw [Row.dropCols_cons, if_neg hk, Row.get?_cons, if_neg hkc]
        exact ih

theorem Row.get?_dropCols_not_mem (r : Row) (cols : List String) (c : String)
    (h : c ∉ cols) : (r.dropCols cols).get? c = r.get? c := by
  induction r with
  | nil => rfl
  | cons p rest ih =>
      obtain ⟨k, w⟩ := p
      by_cases hk : k ∈ cols
      · have hkc : k ≠ c := fun h' => h (h' ▸ hk)
        rw [Row.dropCols_cons, if_pos hk, Row.get?_cons, if_neg hkc]
        exact ih
      · by_cases hkc : k = c
        · rw [Row.dropCols_cons, if_neg hk, Row.get?_cons, if_pos hkc,
            Row.get?_cons, if_pos hkc]
        · rw [Row.dropCols_cons, if_neg hk, Row.get?_cons, if_neg hkc,
            Row.get?_cons, if_neg hkc]
          exact ih

/-! ## Wide-to-long conversion
(PartitionManager.build_ternary_chain / PartitionManager.to_long_mode) -/

/-- Evaluation of the conditional expression generated by
`build_ternary_chain(cols)`: `value = variable == \x60c0\x60 ? c0 : ... : ck`,
a chain of conditionals on the tag column falling through to the last
candidate column. -/
def evalTernaryChain (pvVar : String) : List String → Row → Option Cell
  | [], _ => none
  | [c], r => r.get? c
  | c :: c2 :: cs, r =>
      if r.get? pvVar = some (Cell.cStr c) then r.get? c
      else evalTernaryChain pvVar (c2 :: cs) r

/-- Embedding of `PartitionManager.to_long_mode(table, cols)` with pivot
names `pvVar` ("variable") and `pvVal` ("value"): one tagged copy of the table
per candidate column, merged, then the value column computed by the ternary
chain, then the original wide columns dropped. -/
def to_long_mode (pvVar pvVal : String) (table : Table) (cols : List String) :
    Table :=
  let newTables := cols.map (fun c =>
    table.updateViewWith pvVar (fun _ => Cell.cStr c))
  let merged := mergeTables newTables
  let transposed := merged.updateViewWith pvVal
    (fun r => (evalTernaryChain pvVar cols r).getD Cell.cNone)
  transposed.drop_columns cols

theorem evalTernaryChain_tagged (pvVar : String) (c : String) :
    ∀ (cols : List String) (r : Row), c ∈ cols →
      r.get? pvVar = some (Cell.cStr c) →
      evalTernaryChain pvVar cols r = r.get? c := by
  intro cols
  induction cols with
  | nil => intro r hc _; exact absurd hc (List.not_mem_nil c)
  | cons c1 rest ih =>
      intro r hc htag
      cases rest with
      | nil =>
          have : c = c1 := by simpa using hc
          subst this
          rfl
      | cons c2 cs =>
          by_cases hcc : c = c1
          · subst hcc
            simp [evalTernaryChain, htag]
          · have hcond : ¬ (r.get? pvVar = some (Cell.cStr c1)) := by
              rw [htag]
              simp [hcc]
            have hcr : c ∈ c2 :: cs := by
              rcases List.mem_cons.mp hc with h | h
              · exact absurd h hcc
              · exact h
            simp only [evalTernaryChain, if_neg hcond]
            exact ih r hcr htag

theorem sumMapConst {α : Type} (l : List α) (n : Nat) :
    (l.map (fun _ => n)).sum = l.length * n := by
  induction l with
  | nil => simp
  | cons x xs ih => simp [ih, Nat.succ_mul, Nat.add_comm]

/-- The row produced by `to_long_mode` from source row `r` and candidate
column `c`: the row tagged with `c`, with the synthetic value column holding
`r[c]`, and the original wide columns dropped. -/
def longRow (pvVar pvVal : String) (cols : List String) (c : String)
    (r : Row) : Row :=
  ((r.setCol pvVar (Cell.cStr c)).setCol pvVal
      ((r.get? c).getD Cell.cNone)).dropCols cols

theorem to_long_mode_rows (pvVar pvVal : String) (t : Table)
    (cols : List String) (hvar : pvVar ∉ cols) :
    (to_long_mode pvVar pvVal t cols).rows
      = (cols.map (fun c => t.rows.map (longRow pvVar pvVal cols c))).flatten := by
  show ((mergeTables (cols.map (fun c =>
      t.updateViewWith pvVar (fun _ => Cell.cStr c)))).updateViewWith pvVal
        (fun r => (evalTernaryChain pvVar cols r).getD Cell.cNone)).rows.map
      (fun r => r.dropCols cols)
    = _
  simp only [Table.updateViewWith, mergeTables, List.map_map, List.map_flatten]
  apply congrArg List.flatten
  apply List.map_congr_left
  intro c hc
  simp only [Function.comp]
  rw [List.map_map, List.map_map]
  apply List.map_congr_left
  intro r _
  simp only [Function.comp]
  have htag : (r.setCol pvVar (Cell.cStr c)).get? pvVar = some (Cell.cStr c) :=
    Row.get?_setCol_self r pvVar (Cell.cStr c)
  have hvc : pvVar ≠ c := fun h => hvar (h ▸ hc)
  have heval : evalTernaryChain pvVar cols (r.setCol pvVar (Cell.cStr c))
      = r.get? c := by
    rw [evalTernaryChain_tagged pvVar c cols _ hc htag]
    exact Row.get?_setCol_ne r pvVar c (Cell.cStr c) hvc
  rw [heval]
  rfl

/-- C3: for a wide-format input with candidate columns `cols` for one role,
`to_long_mode` produces exactly one tagged copy of the table per candidate
column, unioned in order (`longRow` characterization and the `k * n` row
count); on every produced row the synthetic value column equals the original
value of the candidate column named by the row's tag; and the original wide
columns are dropped from the result. -/
theorem to_long_mode_spec (pvVar pvVal : String) (t : Table)
    (cols : List String) (_hcols : cols ≠ []) (hvar : pvVar ∉ cols)
    (hval : pvVal ∉ cols) (hne : pvVal ≠ pvVar)
    (hpres : ∀ r ∈ t.rows, ∀ c ∈ cols, (r.get? c).isSome) :
    (to_long_mode pvVar pvVal t cols).rows
        = (cols.map (fun c => t.rows.map (longRow pvVar pvVal cols c))).flatten
    ∧ (to_long_mode pvVar pvVal t cols).rows.length
        = cols.length * t.rows.length
    ∧ (∀ R ∈ (to_long_mode pvVar pvVal t cols).rows, ∀ c ∈ cols,
        R.get? c = none)
    ∧ (∀ c ∈ cols, ∀ r ∈ t.rows,
        (longRow pvVar pvVal cols c r).get? pvVar = some (Cell.cStr c)
        ∧ (longRow pvVar pvVal cols c r).get? pvVal = r.get? c) := by
  have hrows := to_long_mode_rows pvVar pvVal t cols hvar
  refine ⟨hrows, ?_, ?_, ?_⟩
  · rw [hrows, List.length_flatten, List.map_map]
    have : (List.map (List.length ∘ fun c => t.rows.map (longRow pvVar pvVal cols c)) cols)
        = cols.map (fun _ => t.rows.length) := by
      apply List.map_congr_left
      intro c _
      simp [Function.comp]
    rw [this, sumMapConst]
  · intro R hR c hc
    rw [hrows] at hR
    rcases List.mem_flatten.mp hR with ⟨l, hl, hRl⟩
    rcases List.mem_map.mp hl with ⟨c', _, rfl⟩
    rcases List.mem_map.mp hRl with ⟨r, _, rfl⟩
    exact Row.get?_dropCols_mem _ cols c hc
  · intro c hc r hr
    have hvv : pvVar ∉ cols := hvar
    constructor
    · rw [longRow, Row.get?_dropCols_not_mem _ cols pvVar hvv,
        Row.get?_setCol_ne _ pvVal pvVar _ hne, Row.get?_setCol_self]
    · rw [longRow, Row.get?_dropCols_not_mem _ cols pvVal hval,
        Row.get?_setCol_self]
      rcases Option.isSome_iff_exists.mp (hpres r hr c hc) with ⟨w, hw⟩
      rw [hw]
      rfl

/-! ## Histogram preprocessing (HistPreprocesser)

Numeric histogram columns are embedded as lists of rationals.  The shared
range table built by `create_range_table` wraps the external table-engine
class `io.deephaven.plot.datasets.histogram.DiscretizedRangeEqual(min, max,
nbins)`, which divides `[min, max]` into `nbins` equal buckets; its `index`
is null outside the range and clamps the top edge into the last bucket. -/

/-- The single row of the shared range table: the state of the
`DiscretizedRangeEqual` object. -/
structure RangeTable where
  rangeMin : ℚ
  rangeMax : ℚ
  nbins : ℕ
deriving DecidableEq, Repr

/-- Width of one of the `nbins` equal buckets over `[rangeMin, rangeMax]`. -/
def RangeTable.binWidth (rt : RangeTable) : ℚ :=
  (rt.rangeMax - rt.rangeMin) / rt.nbins

/-- Model of `range_.index(value)`: null outside `[min, max]`, otherwise the
equal-width bucket of the value with the top edge clamped into the last
bucket.  (A degenerate zero-width range puts every in-range value into bucket
0, matching the float original where `0.0/0.0` casts to bucket 0.) -/
def RangeTable.index (rt : RangeTable) (v : ℚ) : Option ℕ :=
  if v < rt.rangeMin ∨ rt.rangeMax < v then none
  else some (min ((v - rt.rangeMin) / rt.binWidth).floor.toNat (rt.nbins - 1))

/-- Model of `range_.binMin(i)`. -/
def RangeTable.binMin (rt : RangeTable) (i : ℕ) : ℚ :=
  rt.rangeMin + i * rt.binWidth

/-- Model of `range_.binMax(i)`. -/
def RangeTable.binMax (rt : RangeTable) (i : ℕ) : ℚ :=
  rt.rangeMin + (i + 1) * rt.binWidth

/-- The bin edges `binMin 0, binMin 1, ..., binMax (nbins-1)` of the shared
range table. -/
def RangeTable.binEdges (rt : RangeTable) : List ℚ :=
  (List.range (rt.nbins + 1)).map (fun i : ℕ => rt.rangeMin + (i : ℚ) * rt.binWidth)

/-- Minimum of a nonempty numeric column (`agg.min_`; the empty-column
default is never consulted by the theorems). -/
def listMin : List ℚ → ℚ
  | [] => 0
  | x :: xs => xs.foldl min x

/-- Maximum of a nonempty numeric column (`agg.max_`). -/
def listMax : List ℚ → ℚ
  | [] => 0
  | x :: xs => xs.foldl max x

/-- Embedding of `HistPreprocesser.create_range_table` over the candidate
columns given by their value lists: an explicit `range_bins` is used
directly; otherwise `RangeMin`/`RangeMax` are the min over all columns'
minima and the max over all columns' maxima. -/
def create_range_table (colVals : List (List ℚ))
    (range_bins : Option (ℚ × ℚ)) (nbins : ℕ) : RangeTable :=
  match range_bins with
  | some (lo, hi) => ⟨lo, hi, nbins⟩
  | none => ⟨listMin (colVals.map listMin), listMax (colVals.map listMax), nbins⟩

/-- Embedding of one `create_count_tables` aggregation for
`histfunc="count"`: rows are mapped to their bin index, null indices are
filtered out (`where !isNull(range_index)`), and the count of rows per bin
index `i` is taken (`agg.count_` grouped by `range_index`). -/
def binCount (rt : RangeTable) (vs : List ℚ) (i : ℕ) : ℕ :=
  (vs.filterMap rt.index).count i

/-- Total of the per-bin counts over the bin-index table
`range_index = 0, ..., nbins-1` that the counts are joined onto. -/
def sumBinCounts (rt : RangeTable) (vs : List ℚ) : ℕ :=
  ((List.range rt.nbins).map (binCount rt vs)).sum

theorem foldl_min_le_acc (xs : List ℚ) : ∀ acc : ℚ, xs.foldl min acc ≤ acc := by
  induction xs with
  | nil => intro acc; exact le_refl acc
  | cons x xs ih =>
      intro acc
      exact le_trans (ih (min acc x)) (min_le_left acc x)

theorem foldl_min_le_mem (xs : List ℚ) :
    ∀ (acc : ℚ) (v : ℚ), v ∈ xs → xs.foldl min acc ≤ v := by
  induction xs with
  | nil => intro acc v hv; exact absurd hv (List.not_mem_nil v)
  | cons x xs ih =>
      intro acc v hv
      rcases List.mem_cons.mp hv with rfl | hv'
      · exact le_trans (foldl_min_le_acc xs (min acc v)) (min_le_right acc v)
      · exact ih (min acc x) v hv'

theorem acc_le_foldl_max (xs : List ℚ) : ∀ acc : ℚ, acc ≤ xs.foldl max acc := by
  induction xs with
  | nil => intro acc; exact le_refl acc
  | cons x xs ih =>
      intro acc
      exact le_trans (le_max_left acc x) (ih (max acc x))

theorem mem_le_foldl_max (xs : List ℚ) :
    ∀ (acc : ℚ) (v : ℚ), v ∈ xs → v ≤ xs.foldl max acc := by
  induction xs with
  | nil => intro acc v hv; exact absurd hv (List.not_mem_nil v)
  | cons x xs ih =>
      intro acc v hv
      rcases List.mem_cons.mp hv with rfl | hv'
      · exact le_trans (le_max_right acc v) (acc_le_foldl_max xs (max acc v))
      · exact ih (max acc x) v hv'

theorem listMin_le (vs : List ℚ) (v : ℚ) (h : v ∈ vs) : listMin vs ≤ v := by
  cases vs with
  | nil => exact absurd h (List.not_mem_nil v)
  | cons x xs =>
      rcases List.mem_cons.mp h with rfl | h'
      · exact foldl_min_le_acc xs v
      · exact foldl_min_le_mem xs x v h'

theorem le_listMax (vs : List ℚ) (v : ℚ) (h : v ∈ vs) : v ≤ listMax vs := by
  cases vs with
  | nil => exact absurd h (List.not_mem_nil v)
  | cons x xs =>
      rcases List.mem_cons.mp h with rfl | h'
      · exact acc_le_foldl_max xs v
      · exact mem_le_foldl_max xs x v h'

theorem index_some_of_bounds (rt : RangeTable) (v : ℚ)
    (hlo : rt.rangeMin ≤ v) (hhi : v ≤ rt.rangeMax) (hn : 1 ≤ rt.nbins) :
    ∃ j, rt.index v = some j ∧ j < rt.nbins := by
  refine ⟨min ((v - rt.rangeMin) / rt.binWidth).floor.toNat (rt.nbins - 1), ?_, ?_⟩
  · rw [RangeTable.index, if_neg]
    push_neg
    exact ⟨hlo, hhi⟩
  · exact lt_of_le_of_lt (min_le_right _ _) (Nat.sub_lt hn Nat.one_pos)

theorem filterMap_length_of_total {α β : Type} (f : α → Option β) :
    ∀ l : List α, (∀ x ∈ l, (f x).isSome) → (l.filterMap f).length = l.length := by
  intro l
  induction l with
  | nil => intro _; rfl
  | cons x xs ih =>
      intro h
      rcases Option.isSome_iff_exists.mp (h x (List.mem_cons_self x xs)) with ⟨y, hy⟩
      rw [List.filterMap_cons, hy, List.length_cons, List.length_cons,
        ih (fun a ha => h a (List.mem_cons_of_mem x ha))]

theorem sum_map_add_nat {α : Type} (l : List α) (f g : α → ℕ) :
    (l.map (fun x => f x + g x)).sum = (l.map f).sum + (l.map g).sum := by
  induction l with
  | nil => rfl
  | cons x xs ih => simp only [List.map_cons, List.sum_cons, ih]; omega

theorem sum_indicator_range_ge (x : ℕ) :
    ∀ n : ℕ, n ≤ x → ((List.range n).map (fun i => if i = x then (1 : ℕ) else 0)).sum = 0 := by
  intro n
  induction n with
  | zero => intro _; rfl
  | succ m ih =>
      intro h
      rw [List.range_succ, List.map_append, List.sum_append, ih (by omega)]
      simp [Nat.ne_of_lt (by omega : m < x)]

theorem sum_indicator_range (x : ℕ) :
    ∀ n : ℕ, x < n → ((List.range n).map (fun i => if i = x then (1 : ℕ) else 0)).sum = 1 := by
  intro n
  induction n with
  | zero => intro h; omega
  | succ m ih =>
      intro h
      rw [List.range_succ, List.map_append, List.sum_append]
      by_cases hx : x = m
      · subst hx
        rw [sum_indicator_range_ge x x (le_refl x)]
        simp
      · rw [ih (by omega)]
        simp [hx, Ne.symm hx]

theorem sum_range_count (n : ℕ) :
    ∀ l : List ℕ, (∀ x ∈ l, x < n) →
      ((List.range n).map (fun i => l.count i)).sum = l.length := by
  intro l
  induction l with
  | nil => intro _; simp [List.count_nil, sumMapConst]
  | cons x xs ih =>
      intro h
      have hx : x < n := h x (List.mem_cons_self x xs)
      have hcount : ((List.range n).map (fun i => (x :: xs).count i))
          = (List.range n).map (fun i => xs.count i + if i = x then 1 else 0) := by
        apply List.map_congr_left
        intro i _
        rw [List.count_cons]
        by_cases hix : x = i
        · simp [hix]
        · simp [hix, Ne.symm hix]
      rw [hcount, sum_map_add_nat, ih (fun a ha => h a (List.mem_cons_of_mem x ha)),
        sum_indicator_range x n hx, List.length_cons]

/-- C4 (amended): for a histogram over a nonempty column with `nbins ≥ 1`,
`histfunc="count"` and no explicit range, the shared range table is derived
from the data minimum and maximum — so the bin edges are
`min + i*(max-min)/nbins` (not the idealized `0,1,...,10` for data covering
`[0,10)`, whose maximum is below 10) — and the counts summed across all bins
equal the number of input rows: no row is lost or double-counted by bin
assignment. -/
theorem hist_range_and_conservation (vs : List ℚ) (nbins : ℕ)
    (_hvs : vs ≠ []) (hn : 1 ≤ nbins) :
    (create_range_table [vs] none nbins).binEdges
        = (List.range (nbins + 1)).map
            (fun i : ℕ => listMin vs + (i : ℚ) * ((listMax vs - listMin vs) / (nbins : ℚ)))
    ∧ sumBinCounts (create_range_table [vs] none nbins) vs = vs.length := by
  constructor
  · rfl
  · set rt := create_range_table [vs] none nbins with hrt
    have hminmax : rt.rangeMin = listMin vs ∧ rt.rangeMax = listMax vs ∧
        rt.nbins = nbins := ⟨rfl, rfl, rfl⟩
    have hidx : ∀ v ∈ vs, ∃ j, rt.index v = some j ∧ j < nbins := by
      intro v hv
      have := index_some_of_bounds rt v
        (hminmax.1 ▸ listMin_le vs v hv)
        (hminmax.2.1 ▸ le_listMax vs v hv)
        (hminmax.2.2 ▸ hn)
      simpa [hminmax.2.2] using this
    have htotal : ∀ v ∈ vs, (rt.index v).isSome := by
      intro v hv
      rcases hidx v hv with ⟨j, hj, _⟩
      simp [hj]
    have hbound : ∀ x ∈ vs.filterMap rt.index, x < nbins := by
      intro x hx
      rcases List.mem_filterMap.mp hx with ⟨v, hv, hxv⟩
      rcases hidx v hv with ⟨j, hj, hjlt⟩
      rw [hj] at hxv
      exact Option.some_inj.mp hxv ▸ hjlt
    show ((List.range rt.nbins).map (binCount rt vs)).sum = vs.length
    rw [hminmax.2.2]
    calc ((List.range nbins).map (binCount rt vs)).sum
        = (vs.filterMap rt.index).length :=
          sum_range_count nbins (vs.filterMap rt.index) hbound
      _ = vs.length := filterMap_length_of_total rt.index vs htotal

theorem le_foldl_min (xs : List ℚ) :
    ∀ (acc a : ℚ), a ≤ acc → (∀ v ∈ xs, a ≤ v) → a ≤ xs.foldl min acc := by
  induction xs with
  | nil => intro acc a h _; exact h
  | cons x xs ih =>
      intro acc a h hall
      exact ih (min acc x) a
        (le_min h (hall x (List.mem_cons_self x xs)))
        (fun v hv => hall v (List.mem_cons_of_mem x hv))

theorem foldl_max_le (xs : List ℚ) :
    ∀ (acc a : ℚ), acc ≤ a → (∀ v ∈ xs, v ≤ a) → xs.foldl max acc ≤ a := by
  induction xs with
  | nil => intro acc a h _; exact h
  | cons x xs ih =>
      intro acc a h hall
      exact ih (max acc x) a
        (max_le h (hall x (List.mem_cons_self x xs)))
        (fun v hv => hall v (List.mem_cons_of_mem x hv))

/-- The concrete input of C4: values uniformly covering `[0, 10)` with
spacing 1 (the integers 0 through 9). -/
def uniformTen : List ℚ := [0, 1, 2, 3, 4, 5, 6, 7, 8, 9]

theorem uniformTen_min : listMin uniformTen = 0 := by
  apply le_antisymm
  · exact listMin_le uniformTen 0 (by simp [uniformTen])
  · apply le_foldl_min
    · norm_num
    · intro v hv
      simp only [uniformTen, List.mem_cons, List.not_mem_nil, or_false] at hv
      rcases hv with rfl | rfl | rfl | rfl | rfl | rfl | rfl | rfl | rfl <;> norm_num

theorem uniformTen_max : listMax uniformTen = 9 := by
  apply le_antisymm
  · apply foldl_max_le
    · norm_num
    · intro v hv
      simp only [uniformTen, List.mem_cons, List.not_mem_nil, or_false] at hv
      rcases hv with rfl | rfl | rfl | rfl | rfl | rfl | rfl | rfl | rfl <;> norm_num
  · exact le_listMax uniformTen 9 (by simp [uniformTen])

theorem uniformTen_edges :
    (create_range_table [uniformTen] none 10).binEdges
      = (List.range 11).map (fun i : ℕ => (9 * (i : ℚ)) / 10) := by
  show (List.range 11).map (fun i : ℕ =>
      (create_range_table [uniformTen] none 10).rangeMin
        + (i : ℚ) * (create_range_table [uniformTen] none 10).binWidth) = _
  apply List.map_congr_left
  intro i _
  have hmin : (create_range_table [uniformTen] none 10).rangeMin
      = listMin uniformTen := rfl
  have hmax : (create_range_table [uniformTen] none 10).rangeMax
      = listMax uniformTen := rfl
  have hnb : (create_range_table [uniformTen] none 10).nbins = 10 := rfl
  rw [RangeTable.binWidth, hmin, hmax, hnb, uniformTen_min, uniformTen_max]
  push_cast
  ring

/-- Witness for C4 (amended) at the concrete uniform input with 10 bins. -/
theorem hist_range_and_conservation_witness :
    uniformTen ≠ [] ∧
    ((create_range_table [uniformTen] none 10).binEdges
        = (List.range 11).map
            (fun i : ℕ => listMin uniformTen
              + (i : ℚ) * ((listMax uniformTen - listMin uniformTen) / ((10 : ℕ) : ℚ)))
    ∧ sumBinCounts (create_range_table [uniformTen] none 10) uniformTen
        = uniformTen.length) :=
  ⟨by decide, hist_range_and_conservation uniformTen 10 (by decide) (by decide)⟩

/-- Counterexample to C4 as stated: over the integers 0..9 (uniformly
covering `[0,10)`) with `nbins = 10` and no explicit range, the computed bin
edges are the multiples of 9/10 from the data range `[0, 9]` — not
`0, 1, ..., 10` as the claim asserts. -/
theorem hist_bin_edges_counterexample :
    (create_range_table [uniformTen] none 10).binEdges
        = (List.range 11).map (fun i : ℕ => (9 * (i : ℚ)) / 10)
    ∧ (create_range_table [uniformTen] none 10).binEdges
        ≠ (List.range 11).map (fun i : ℕ => (i : ℚ)) := by
  refine ⟨uniformTen_edges, ?_⟩
  intro h
  rw [uniformTen_edges] at h
  have h1 := List.map_inj_left.mp h 1 (by decide)
  norm_num at h1

/-! ## Frequency preprocessing and the Preprocesser dispatcher
(FreqPreprocesser.py, Preprocesser.py) -/

/-- Modelled from the spec: `get_unique_names` (defined in the repository's
`shared` module, which is not under `src/`) returns, per requested name, a
name that does not collide with any existing column of the table; this
embedding suffixes underscores until fresh, for a single requested name. -/
def freshNameAux (names : List String) : String → ℕ → String
  | base, 0 => base
  | base, n + 1 => if base ∈ names then freshNameAux names (base ++ "_") n else base

/-- Modelled from the spec: collision-free unique name against a table's
columns (see `freshNameAux`). -/
def get_unique_name (t : Table) (base : String) : String :=
  freshNameAux t.colNames base (t.colNames.length + 1)

/-- Embedding of `table.view([cols])`: keeps only the selected columns, in
the given order. -/
def Table.viewCols (t : Table) (cs : List String) : Table :=
  { schema := cs.map (fun c => (c, (assocLookup t.schema c).getD "object")),
    rows := t.rows.map (fun r =>
      cs.map (fun c => (c, (r.get? c).getD Cell.cNone))) }

/-- Embedding of `table.count_by(count_col, by=col)`: one row per distinct
value of `col` in first-appearance order, with the number of source rows
carrying that value. -/
def Table.count_by (t : Table) (countName : String) (byCol : String) : Table :=
  let vals := t.rows.map (fun r => (r.get? byCol).getD Cell.cNone)
  { schema := [(byCol, (assocLookup t.schema byCol).getD "object"),
               (countName, "long")],
    rows := (distinctSeen [] vals).map (fun v =>
      [(byCol, v), (countName, Cell.cInt (vals.count v))]) }

/-- The state a `FreqPreprocesser` holds after `UnivariatePreprocesser`
construction: the args table and the axis roles (`var` is the axis carrying
the univariate column, `other_var` the axis that will carry the counts). -/
structure FreqState where
  table : Table
  var : String
  other_var : String
deriving DecidableEq, Repr

/-- A role-remapping dictionary yielded alongside a preprocessed table. -/
abbrev RoleMap := List (String × String)

/-- The body of `FreqPreprocesser.preprocess_partitioned_tables(column)`,
invoked as its one-parameter signature declares: counts rows grouped by the
column's distinct values into a fresh `count` column and remaps the axis
roles. -/
def freq_preprocess_partitioned_tables (st : FreqState) (column : String) :
    Table × RoleMap :=
  let countCol := get_unique_name st.table "count"
  ((st.table.viewCols [column]).count_by countCol column,
   [(st.var, column), (st.other_var, countCol)])

/-- Embedding of `deephaven.time` arithmetic used by `TimePreprocesser`:
`nanos_to_millis(diff_nanos(start, end))`. -/
def time_length (startNs endNs : Int) : Int := (endNs - startNs) / 1000000

/-- Embedding of `TimePreprocesser.preprocess_partitioned_tables` on one
table: adds `x_diff = time_length(x_start, x_end)` via `update_view`. -/
def time_preprocess (xStart xEnd xDiff : String) (t : Table) :
    Table × RoleMap :=
  (t.updateViewWith xDiff (fun r =>
      match r.get? xStart, r.get? xEnd with
      | some (Cell.cInt s), some (Cell.cInt e) => Cell.cInt (time_length s e)
      | _, _ => Cell.cNone),
   [("x_diff", xDiff)])

/-- The preprocessor selected by `Preprocesser.prepare_preprocess` (when one
is assigned to `self.preprocesser` at all: the `always_attached` branch
constructs an `AttachedPreprocesser` without assigning it). -/
inductive ActivePreproc where
  | freqP (st : FreqState)
  | timeP (xStart xEnd xDiff : String)
deriving DecidableEq, Repr

/-- Embedding of `Preprocesser.prepare_preprocess`: the `preprocess_hist`
branch calls `HistPreprocesser(self.args, self.pivot_vars)`, but
`HistPreprocesser.__init__` declares only `(self, args)`, so CPython raises
`TypeError` before any histogram state exists; `preprocess_freq` selects the
frequency preprocessor; the `always_attached` branch assigns nothing;
`preprocess_time` selects the time preprocessor. -/
def prepare_preprocess (groups : List String) (freqSt : FreqState)
    (timeCols : String × String × String) (alwaysAttachedNonempty : Bool) :
    Except PyErr (Option ActivePreproc) :=
  if "preprocess_hist" ∈ groups then
    Except.error (PyErr.typeError
      "HistPreprocesser.init takes 2 positional arguments but 3 were given")
  else if "preprocess_freq" ∈ groups then
    Except.ok (some (ActivePreproc.freqP freqSt))
  else if "always_attached" ∈ groups ∧ alwaysAttachedNonempty then
    Except.ok none
  else if "preprocess_time" ∈ groups then
    Except.ok (some (ActivePreproc.timeP timeCols.1 timeCols.2.1 timeCols.2.2))
  else
    Except.ok none

/-- The output stream of the dispatcher: raw tables (no preprocessor) or
preprocessed `(table, role-update)` pairs. -/
abbrev PPOut := Table ⊕ (Table × RoleMap)

/-- Embedding of `Preprocesser.preprocess_partitioned_tables(tables, column)`:
with no selected preprocessor the tables are yielded unchanged; otherwise both
positional arguments are forwarded to the selected preprocessor's
`preprocess_partitioned_tables`.  `TimePreprocesser`'s accepts
`(tables, column=None)` and runs; `FreqPreprocesser`'s accepts only
`(column)`, so forwarding two positional arguments raises `TypeError` before
the method body runs. -/
def preprocesser_dispatch (p : Option ActivePreproc) (tables : List Table)
    (_column : Option String) : Except PyErr (List PPOut) :=
  match p with
  | none => Except.ok (tables.map Sum.inl)
  | some (ActivePreproc.freqP _) =>
      Except.error (PyErr.typeError
        "preprocess_partitioned_tables takes 2 positional arguments but 3 were given")
  | some (ActivePreproc.timeP xs xe xd) =>
      Except.ok (tables.map (fun t => Sum.inr (time_preprocess xs xe xd t)))

/-- The concrete univariate frequency table of C6, with column values
`[a, a, b]`. -/
def freqTable : Table :=
  ⟨[("Cat", "java.lang.String")],
   [[("Cat", Cell.cStr "a")], [("Cat", Cell.cStr "a")], [("Cat", Cell.cStr "b")]]⟩

/-- C6 (code bug): invoking the frequency preprocessing through the
`Preprocesser` dispatcher raises `TypeError` — the dispatcher forwards
`(tables, column)` but `FreqPreprocesser.preprocess_partitioned_tables`
declares only `(self, column)` — instead of producing the claimed table;
whereas the frequency body itself, called as its signature declares on the
column with values `[a, a, b]`, produces exactly the two-row `(value, count)`
table `(a, 2), (b, 1)` with the axis roles remapped. -/
theorem freq_dispatch_arity_bug :
    preprocesser_dispatch (some (ActivePreproc.freqP ⟨freqTable, "x", "y"⟩))
        [freqTable] (some "Cat")
      = Except.error (PyErr.typeError
          "preprocess_partitioned_tables takes 2 positional arguments but 3 were given")
    ∧ (freq_preprocess_partitioned_tables ⟨freqTable, "x", "y"⟩ "Cat").1.rows
      = [[("Cat", Cell.cStr "a"), ("count", Cell.cInt 2)],
         [("Cat", Cell.cStr "b"), ("count", Cell.cInt 1)]]
    ∧ (freq_preprocess_partitioned_tables ⟨freqTable, "x", "y"⟩ "Cat").2
      = [("x", "Cat"), ("y", "count")] := by
  refine ⟨rfl, ?_, ?_⟩ <;> decide

/-! ## Histogram normalization / cumulative pipeline
(HistPreprocesser.preprocess_partitioned_tables, lines 156-199)

The per-bin aggregate column of one candidate column is embedded as a list of
rationals in bin-index order 0, ..., nbins-1 (the order of the `bin_counts`
base table that the aggregated counts are natural-joined onto).  The
`histnorm` argument ranges over plotly's closed set of values, embedded as an
enumeration; the cumulative branch's
`self.histnorm.replace("density", "").strip()` acts on that set by sending
"probability density" to "probability" and "density" to the empty string
(embedded as `none`, which is equally falsy and equally outside every
membership test downstream). -/

/-- The plotly `histnorm` values. -/
inductive HistNorm where
  | percent
  | probability
  | density
  | probability_density
deriving DecidableEq, Repr

/-- Embedding of `self.histnorm.replace("density", "").strip()` on the
`histnorm` value set. -/
def dropDensityWord : Option HistNorm → Option HistNorm
  | some HistNorm.probability_density => some HistNorm.probability
  | some HistNorm.density => none
  | other => other

/-- Embedding of `update_by(cum_sum(...))` on one numeric column: the running
sum with accumulator `acc`. -/
def cumSumAux (acc : ℚ) : List ℚ → List ℚ
  | [] => []
  | x :: xs => (acc + x) :: cumSumAux (acc + x) xs

/-- Running cumulative sum of a column. -/
def cumSumQ (l : List ℚ) : List ℚ := cumSumAux 0 l

/-- The first normalization block: for `histnorm` in
`{percent, probability, probability density}` each bin value is scaled by
`mult_factor / column_sum` (`mult_factor` is 100 for percent, else 1). -/
def histnorm_stage (histnorm : Option HistNorm) (counts : List ℚ) : List ℚ :=
  match histnorm with
  | some hn =>
      if hn = HistNorm.percent ∨ hn = HistNorm.probability
          ∨ hn = HistNorm.probability_density then
        counts.map (fun c =>
          c * (if hn = HistNorm.percent then (100 : ℚ) else 1) / counts.sum)
      else counts
  | none => counts

/-- The cumulative block: when `cumulative` is set, the column is replaced by
its running sum and the "density" word is dropped from `histnorm` (when
`histnorm` is truthy). -/
def cumulative_stage (histnorm : Option HistNorm) (cumulative : Bool)
    (counts : List ℚ) : List ℚ × Option HistNorm :=
  if cumulative then (cumSumQ counts, dropDensityWord histnorm)
  else (counts, histnorm)

/-- The density block: for `histnorm` in `{density, probability density}`
each bin value is divided by its bin width `bin_max - bin_min`. -/
def density_stage (histnorm : Option HistNorm) (binMins binMaxs : List ℚ)
    (counts : List ℚ) : List ℚ :=
  match histnorm with
  | some hn =>
      if hn = HistNorm.density ∨ hn = HistNorm.probability_density then
        (counts.zip (binMins.zip binMaxs)).map (fun p => p.1 / (p.2.2 - p.2.1))
      else counts
  | none => counts

/-- The barnorm block for a single count column: when `barnorm` is truthy,
each bin value is scaled by `mult_factor / total` where `total` is the sum of
the count columns on that row (the column itself when it is the only one). -/
def barnorm_stage (barnorm : Option String) (counts : List ℚ) : List ℚ :=
  match barnorm with
  | some bn =>
      if bn = "" then counts
      else counts.map (fun c =>
        c * (if bn = "percent" then (100 : ℚ) else 1) / c)
  | none => counts

/-- The post-aggregation pipeline of
`HistPreprocesser.preprocess_partitioned_tables` on one count column, in the
source's order: fraction normalization, then cumulative sum with the
"density" word dropped, then density division, then barnorm. -/
def hist_post (histnorm : Option HistNorm) (cumulative : Bool)
    (barnorm : Option String) (binMins binMaxs : List ℚ)
    (counts : List ℚ) : List ℚ :=
  let c1 := histnorm_stage histnorm counts
  let st := cumulative_stage histnorm cumulative c1
  let c3 := density_stage st.2 binMins binMaxs st.1
  barnorm_stage barnorm c3

theorem cumSumAux_getD (l : List ℚ) :
    ∀ (acc : ℚ) (i : ℕ), i < l.length →
      (cumSumAux acc l).getD i 0 = acc + (l.take (i + 1)).sum := by
  induction l with
  | nil => intro acc i h; exact absurd h (by simp)
  | cons x xs ih =>
      intro acc i h
      cases i with
      | zero => simp [cumSumAux]
      | succ j =>
          have hj : j < xs.length := by simpa using h
          simp only [cumSumAux, List.getD_cons_succ, ih (acc + x) j hj,
            List.take_succ_cons, List.sum_cons]
          ring

theorem cumSumQ_getD (l : List ℚ) (i : ℕ) (h : i < l.length) :
    (cumSumQ l).getD i 0 = (l.take (i + 1)).sum := by
  rw [cumSumQ, cumSumAux_getD l 0 i h, zero_add]

theorem sum_map_mul_one_div (l : List ℚ) (S : ℚ) :
    (l.map (fun c => c * 1 / S)).sum = l.sum / S := by
  induction l with
  | nil => simp
  | cons x xs ih =>
      simp only [mul_one] at ih ⊢
      simp only [List.map_cons, List.sum_cons, ih, add_div]

/-- C5: with cumulative mode on and no normalization, the output value at bin
index `i` is the sum of the raw per-bin aggregates for bins `0..i`; and with
cumulative mode combined with `histnorm="probability density"`, the output at
bin `i` is the prefix sum divided by the per-column total — the probability
division is applied while the division by bin width is not (the result does
not depend on the bin bounds at all). -/
theorem hist_cumulative_spec (counts binMins binMaxs : List ℚ) (i : ℕ)
    (hi : i < counts.length) :
    (hist_post none true none binMins binMaxs counts).getD i 0
        = (counts.take (i + 1)).sum
    ∧ (hist_post (some HistNorm.probability_density) true none
          binMins binMaxs counts).getD i 0
        = (counts.take (i + 1)).sum / counts.sum := by
  constructor
  · show (cumSumQ counts).getD i 0 = _
    exact cumSumQ_getD counts i hi
  · show (cumSumQ (counts.map (fun c => c * 1 / counts.sum))).getD i 0 = _
    have hlen : i < (counts.map (fun c => c * 1 / counts.sum)).length := by
      simpa using hi
    rw [cumSumQ_getD _ i hlen, ← List.map_take, sum_map_mul_one_div]

/-- Witness for C5 at a concrete three-bin column. -/
theorem hist_cumulative_spec_witness :
    (1 : ℕ) < ([4, 6, 10] : List ℚ).length ∧
    ((hist_post none true none [0, 1, 2] [1, 2, 3] [4, 6, 10]).getD 1 0
        = (([4, 6, 10] : List ℚ).take 2).sum
    ∧ (hist_post (some HistNorm.probability_density) true none
          [0, 1, 2] [1, 2, 3] [4, 6, 10]).getD 1 0
        = (([4, 6, 10] : List ℚ).take 2).sum / ([4, 6, 10] : List ℚ).sum) :=
  ⟨by decide, hist_cumulative_spec [4, 6, 10] [0, 1, 2] [1, 2, 3] 1 (by decide)⟩

/-- Witness for C3 at a concrete two-column, two-row table with candidate
columns `["A", "B"]` and pivot names `variable`/`value`. -/
theorem to_long_mode_spec_witness :
    (["A", "B"] ≠ ([] : List String)) ∧
    ((to_long_mode "variable" "value"
        ⟨[("A", "int"), ("B", "int")],
         [[("A", Cell.cInt 1), ("B", Cell.cInt 2)],
          [("A", Cell.cInt 3), ("B", Cell.cInt 4)]]⟩ ["A", "B"]).rows
        = (List.map (fun c => (([[("A", Cell.cInt 1), ("B", Cell.cInt 2)],
            [("A", Cell.cInt 3), ("B", Cell.cInt 4)]] : List Row).map
              (longRow "variable" "value" ["A", "B"] c))) ["A", "B"]).flatten
    ∧ (to_long_mode "variable" "value"
        ⟨[("A", "int"), ("B", "int")],
         [[("A", Cell.cInt 1), ("B", Cell.cInt 2)],
          [("A", Cell.cInt 3), ("B", Cell.cInt 4)]]⟩ ["A", "B"]).rows.length
        = (["A", "B"] : List String).length * 2
    ∧ (∀ R ∈ (to_long_mode "variable" "value"
        ⟨[("A", "int"), ("B", "int")],
         [[("A", Cell.cInt 1), ("B", Cell.cInt 2)],
          [("A", Cell.cInt 3), ("B", Cell.cInt 4)]]⟩ ["A", "B"]).rows,
        ∀ c ∈ (["A", "B"] : List String), R.get? c = none)
    ∧ (∀ c ∈ (["A", "B"] : List String),
        ∀ r ∈ ([[("A", Cell.cInt 1), ("B", Cell.cInt 2)],
          [("A", Cell.cInt 3), ("B", Cell.cInt 4)]] : List Row),
        (longRow "variable" "value" ["A", "B"] c r).get? "variable"
            = some (Cell.cStr c)
        ∧ (longRow "variable" "value" ["A", "B"] c r).get? "value"
            = r.get? c)) :=
  ⟨by decide,
   to_long_mode_spec "variable" "value"
     ⟨[("A", "int"), ("B", "int")],
      [[("A", Cell.cInt 1), ("B", Cell.cInt 2)],
       [("A", Cell.cInt 3), ("B", Cell.cInt 4)]]⟩ ["A", "B"]
     (by decide) (by decide) (by decide) (by decide) (by decide)⟩

/-! ## Python values and argument dictionaries

The call-argument mapping of the pipeline is a Python dict from parameter
name to arbitrary value; values are embedded as `PyVal` and dicts as
association lists in insertion order. -/

/-- A Python value as it flows through the argument-processing code. -/
inductive PyVal where
  | vNone
  | vBool (b : Bool)
  | vInt (n : Int)
  | vStr (s : String)
  | vList (xs : List PyVal)
  | vTuple (xs : List PyVal)
  | vDictS (entries : List (String × PyVal))
  | vTable (t : Table)
  | vPTable (keyColumns : List String) (constituents : List (Row × Table))

/-- Python truthiness of a value. -/
def PyVal.truthy : PyVal → Bool
  | PyVal.vNone => false
  | PyVal.vBool b => b
  | PyVal.vInt n => decide (n ≠ 0)
  | PyVal.vStr s => !s.isEmpty
  | PyVal.vList xs => !xs.isEmpty
  | PyVal.vTuple xs => !xs.isEmpty
  | PyVal.vDictS es => !es.isEmpty
  | PyVal.vTable _ => true
  | PyVal.vPTable _ _ => true

/-- Whether a value is a deephaven `Table` instance (`isinstance(v, Table)`;
a `PartitionedTable` is not). -/
def PyVal.isTable : PyVal → Bool
  | PyVal.vTable _ => true
  | _ => false

/-- Python `len(v)`: defined for sized values, `TypeError` otherwise. -/
def pyLen : PyVal → Except PyErr Nat
  | PyVal.vStr s => Except.ok s.length
  | PyVal.vList xs => Except.ok xs.length
  | PyVal.vTuple xs => Except.ok xs.length
  | PyVal.vDictS es => Except.ok es.length
  | _ => Except.error (PyErr.typeError "object has no len")

/-- Python `v in names` for a set of strings: lists and dicts are unhashable
(`TypeError`); other non-string hashables are simply not members. -/
def memOfStrSet (v : PyVal) (names : List String) : Except PyErr Bool :=
  match v with
  | PyVal.vStr s => Except.ok (decide (s ∈ names))
  | PyVal.vList _ => Except.error (PyErr.typeError "unhashable type: list")
  | PyVal.vDictS _ => Except.error (PyErr.typeError "unhashable type: dict")
  | _ => Except.ok false

/-- An argument dictionary in insertion order. -/
abbrev ArgsD := List (String × PyVal)

/-- Setting a key of a dict: replaces an existing binding in place or appends
a new one. -/
def assocSet {α : Type} : List (String × α) → String → α → List (String × α)
  | [], k, v => [(k, v)]
  | (k', w) :: rest, k, v =>
      if k' = k then (k, v) :: rest else (k', w) :: assocSet rest k v

/-- `dict.pop(key)`: the removed value (when present) and the remaining
dict. -/
def assocPop {α : Type} : List (String × α) → String → Option α × List (String × α)
  | [], _ => (none, [])
  | (k', w) :: rest, k =>
      if k' = k then (some w, rest)
      else
        let r := assocPop rest k
        (r.1, (k', w) :: r.2)

/-! ## validate_common_args / process_args (plots/_private_utils.py)

`process_args` begins by calling `validate_common_args(args)`, whose only
check is `isinstance(args["table"], Table)`; on failure it raises
`ValueError("Argument table is not of type Table")`.  Everything after the
validation (the `apply_args_groups` / add / pop / remap steps) is embedded as
an arbitrary continuation `rest`, so the theorems hold for whatever that rest
computes. -/

/-- Embedding of `validate_common_args` on the `table` argument (a missing
key would raise `KeyError`). -/
def validate_common_args (table? : Option PyVal) : Except PyErr Unit :=
  match table? with
  | none => Except.error (PyErr.keyError "table")
  | some t =>
      if t.isTable then Except.ok ()
      else Except.error (PyErr.valueError "Argument table is not of type Table")

/-- Embedding of `process_args`: validation first, then the rest of argument
processing. -/
def process_args {α : Type} (rest : Option PyVal → Except PyErr α)
    (table? : Option PyVal) : Except PyErr α :=
  match validate_common_args table? with
  | Except.error e => Except.error e
  | Except.ok _ => rest table?

/-- C8 (amended): for every chart call whose `table` argument is present but
not a `Table` instance, `process_args` fails immediately — before any of the
subsequent argument processing (any `rest`) runs — with
`ValueError("Argument table is not of type Table")`, which is a `ValueError`,
not a `TypeError`. -/
theorem process_args_rejects_non_table {α : Type}
    (rest : Option PyVal → Except PyErr α) (t : PyVal)
    (h : t.isTable = false) :
    process_args rest (some t)
      = Except.error (PyErr.valueError "Argument table is not of type Table")
    ∧ PyErr.isTypeError (PyErr.valueError "Argument table is not of type Table")
      = false := by
  constructor
  · rw [process_args, validate_common_args]
    rw [if_neg (by rw [h]; exact Bool.false_ne_true)]
  · rfl

/-- Witness for C8 (amended) at a concrete non-table input (an int) and a
trivial continuation. -/
theorem process_args_rejects_non_table_witness :
    (PyVal.vInt 3).isTable = false ∧
    (process_args (fun t => Except.ok t) (some (PyVal.vInt 3))
      = Except.error (PyErr.valueError "Argument table is not of type Table")
    ∧ PyErr.isTypeError (PyErr.valueError "Argument table is not of type Table")
      = false) :=
  ⟨rfl, process_args_rejects_non_table (fun t => Except.ok t) (PyVal.vInt 3) rfl⟩

/-- Counterexample to C8 as stated: at the concrete non-table input
`args["table"] = 3`, argument processing does fail immediately, but the error
raised is a `ValueError`, not a `TypeError`-equivalent. -/
theorem process_args_valueerror_counterexample :
    process_args (fun t => Except.ok t) (some (PyVal.vInt 3))
      = Except.error (PyErr.valueError "Argument table is not of type Table")
    ∧ PyErr.isTypeError (PyErr.valueError "Argument table is not of type Table")
      = false :=
  ⟨rfl, rfl⟩

/-! ## Module-level handle_plot_by_arg (plots/_private_utils.py, lines
1017-1058)

This module-level revision of the function binds `map_` to the string
literal `"color_discrete_map"` (rather than to `args[map_name]`), so its
`== "by"` and `== "identity"` comparisons are comparisons of string
literals.  The `identity` branch contains `args.pop["attached_color"]` — a
subscript of the bound method `pop`, which would raise
`TypeError("'builtin_function_or_method' object is not subscriptable")` if
executed. -/

/-- The numeric deephaven column types (`NUMERIC_TYPES`). -/
def NUMERIC_TYPES : List String := ["short", "int", "long", "float", "double"]

/-- Embedding of `numeric_column_set(table)`: names of the columns whose
`data_type.j_name` is numeric. -/
def numeric_column_set (t : Table) : List String :=
  (t.schema.filter (fun p => decide (p.2 ∈ NUMERIC_TYPES))).map Prod.fst

/-- The message of the `TypeError` that executing the subscript
`args.pop["attached_color"]` would produce. -/
def subscriptErrMsg : String :=
  "builtin_function_or_method object is not subscriptable"

/-- `args[dst] = args.pop(src)` (a missing `src` raises `KeyError`). -/
def popSet (args : ArgsD) (src dst : String) : Except PyErr ArgsD :=
  match assocPop args src with
  | (none, _) => Except.error (PyErr.keyError src)
  | (some v, args') => Except.ok (assocSet args' dst v)

/-- Embedding of `(isinstance(val, str) or len(val) == 1) and
val in numeric_cols` with Python's evaluation order: the `isinstance` check
short-circuits `len`, and membership in the string set may raise for
unhashable values. -/
def is_single_numeric (val : PyVal) (ncols : List String) :
    Except PyErr Bool :=
  match val with
  | PyVal.vStr s => Except.ok (decide (s ∈ ncols))
  | _ =>
      match pyLen val with
      | Except.error e => Except.error e
      | Except.ok n =>
          if n = 1 then memOfStrSet val ncols else Except.ok false

/-- The `arg == "color"` branch of the module-level `handle_plot_by_arg`,
with `map_` bound to the literal `"color_discrete_map"`. -/
def mh_color (args : ArgsD) (val : PyVal) (numeric_cols : List String)
    (plot_by_cols : PyVal) : Except PyErr ArgsD :=
  if ("color_discrete_map" : String) = "by" then popSet args "color" "color_by"
  else if ("color_discrete_map" : String) = "identity" then
    Except.error (PyErr.typeError subscriptErrMsg)
  else
    match is_single_numeric val numeric_cols with
    | Except.error e => Except.error e
    | Except.ok true => Except.ok args
    | Except.ok false =>
        if val.truthy then popSet args "color" "color_by"
        else if plot_by_cols.truthy then
          Except.ok (assocSet args "color_by" plot_by_cols)
        else Except.ok args

/-- The `arg == "size"` branch: its first test is `isinstance(str, val)` with
the arguments swapped, which raises `TypeError` for every non-classinfo
`val`. -/
def mh_size (_args : ArgsD) : Except PyErr ArgsD :=
  Except.error (PyErr.typeError "isinstance arg 2 must be a type or tuple of types")

/-- The `arg in {"pattern_shape", "symbol"}` branch: `map_` is bound to the
map-name string from the module `PARTITION_ARGS`, which is never the literal
`"identity"`, so the `else` branch renames `arg` to `arg_by`. -/
def mh_shape (args : ArgsD) (arg : String) (plot_by_cols : PyVal) :
    Except PyErr ArgsD :=
  if (arg ++ "_map") = "identity" then
    Except.ok (assocSet args (arg ++ "_attached") plot_by_cols)
  else popSet args arg (arg ++ "_by")

/-- The branch dispatch of the module-level `handle_plot_by_arg` on `arg`
(the fall-through for other `arg` values leaves the dict unchanged). -/
def mh_select (args : ArgsD) (arg : String) (val : PyVal) (t : Table) :
    Except PyErr ArgsD :=
  if arg = "color" then
    mh_color args val (numeric_column_set t)
      ((assocLookup args "plot_by").getD (PyVal.vStr "cols"))
  else if arg = "size" then mh_size args
  else if arg = "pattern_shape" ∨ arg = "symbol" then
    mh_shape args arg ((assocLookup args "plot_by").getD (PyVal.vStr "cols"))
  else Except.ok args

/-- The common return of `handle_plot_by_arg`:
`(f"{arg}_by", args.get(f"{arg}_by"))` alongside the mutated dict. -/
def mh_return (arg : String) (res : Except PyErr ArgsD) :
    Except PyErr (ArgsD × (String × Option PyVal)) :=
  match res with
  | Except.error e => Except.error e
  | Except.ok args' =>
      Except.ok (args', (arg ++ "_by", assocLookup args' (arg ++ "_by")))

/-- Embedding of the module-level `handle_plot_by_arg(args, arg, val)`:
computes the numeric column set of `args["table"]` (a non-table there has no
`columns` attribute), reads `args.get("plot_by", "cols")`, dispatches on
`arg`, and returns the mutated dict with `(f"{arg}_by",
args.get(f"{arg}_by"))`. -/
def module_handle_plot_by_arg (args : ArgsD) (arg : String) (val : PyVal) :
    Except PyErr (ArgsD × (String × Option PyVal)) :=
  match assocLookup args "table" with
  | none => Except.error (PyErr.keyError "table")
  | some (PyVal.vTable t) => mh_return arg (mh_select args arg val t)
  | some _ => Except.error (PyErr.attributeError "object has no attribute columns")

theorem popSet_ne_subscript (args : ArgsD) (src dst : String) :
    popSet args src dst ≠ Except.error (PyErr.typeError subscriptErrMsg) := by
  rw [popSet]
  cases assocPop args src with
  | mk o rest =>
      cases o with
      | none => simp
      | some v => simp

theorem is_single_numeric_ne_subscript (val : PyVal) (ncols : List String) :
    is_single_numeric val ncols ≠ Except.error (PyErr.typeError subscriptErrMsg) := by
  cases val <;> simp [is_single_numeric, pyLen, memOfStrSet, subscriptErrMsg] <;>
    split <;> simp [memOfStrSet]

theorem mh_color_ne_subscript (args : ArgsD) (val : PyVal)
    (ncols : List String) (pbc : PyVal) :
    mh_color args val ncols pbc ≠ Except.error (PyErr.typeError subscriptErrMsg) := by
  intro hcontra
  rw [mh_color, if_neg (by decide), if_neg (by decide)] at hcontra
  cases h : is_single_numeric val ncols with
  | error e =>
      rw [h] at hcontra
      have hc' : (Except.error e : Except PyErr ArgsD)
          = Except.error (PyErr.typeError subscriptErrMsg) := hcontra
      injection hc' with he
      exact is_single_numeric_ne_subscript val ncols (he ▸ h)
  | ok b =>
      rw [h] at hcontra
      cases b with
      | true => exact Except.noConfusion hcontra
      | false =>
          by_cases hv : val.truthy
          · simp only [hv, if_true] at hcontra
            exact popSet_ne_subscript args "color" "color_by" hcontra
          · simp only [hv, Bool.false_eq_true, if_false] at hcontra
            by_cases hp : pbc.truthy
            · simp only [hp, if_true] at hcontra
              exact Except.noConfusion hcontra
            · simp only [hp, Bool.false_eq_true, if_false] at hcontra
              exact Except.noConfusion hcontra

theorem mh_return_ne_subscript (arg : String) (res : Except PyErr ArgsD)
    (h : res ≠ Except.error (PyErr.typeError subscriptErrMsg)) :
    mh_return arg res ≠ Except.error (PyErr.typeError subscriptErrMsg) := by
  cases res with
  | error e =>
      intro hc
      have hc' : (Except.error e : Except PyErr (ArgsD × (String × Option PyVal)))
          = Except.error (PyErr.typeError subscriptErrMsg) := hc
      injection hc' with he
      exact h (he ▸ rfl)
  | ok a => intro hc; exact Except.noConfusion hc

/-- C10: in every invocation of the module-level `handle_plot_by_arg` with
`arg = "color"`, the branch containing the subscript
`args.pop["attached_color"]` is unreachable — `map_` is bound to the string
literal `"color_discrete_map"`, which equals neither `"by"` nor
`"identity"` — so the invocation never raises the `TypeError` that executing
the subscript would produce. -/
theorem handle_plot_by_arg_color_no_subscript_typeerror
    (args : ArgsD) (val : PyVal) :
    module_handle_plot_by_arg args "color" val
      ≠ Except.error (PyErr.typeError subscriptErrMsg) := by
  rw [module_handle_plot_by_arg]
  cases hT : assocLookup args "table" with
  | none => simp [subscriptErrMsg]
  | some tv =>
      cases tv with
      | vTable t =>
          show mh_return "color" (mh_select args "color" val t)
              ≠ Except.error (PyErr.typeError subscriptErrMsg)
          rw [show mh_select args "color" val t
              = mh_color args val (numeric_column_set t)
                  ((assocLookup args "plot_by").getD (PyVal.vStr "cols")) from
              by rw [mh_select, if_pos rfl]]
          exact mh_return_ne_subscript "color" _
            (mh_color_ne_subscript args val _ _)
      | vNone => simp [subscriptErrMsg]
      | vBool b => simp [subscriptErrMsg]
      | vInt n => simp [subscriptErrMsg]
      | vStr s => simp [subscriptErrMsg]
      | vList xs => simp [subscriptErrMsg]
      | vTuple xs => simp [subscriptErrMsg]
      | vDictS es => simp [subscriptErrMsg]
      | vPTable k c => simp [subscriptErrMsg]

/-- Witness for C10 at a concrete dict (a one-column table and a color column
value): the invocation returns without the subscript `TypeError`. -/
theorem handle_plot_by_arg_color_no_subscript_typeerror_witness :
    module_handle_plot_by_arg [("table", PyVal.vTable ⟨[("A", "int")], []⟩),
        ("color", PyVal.vStr "A")] "color" (PyVal.vStr "A")
      ≠ Except.error (PyErr.typeError subscriptErrMsg) :=
  handle_plot_by_arg_color_no_subscript_typeerror
    [("table", PyVal.vTable ⟨[("A", "int")], []⟩), ("color", PyVal.vStr "A")]
    (PyVal.vStr "A")

/-! ## PartitionManager.process_partitions (plots/PartitionManager.py)

The call-argument dict of a chart call is embedded as a record: one field per
parameter name of the chart signatures, of type `Option PyVal` where `none`
means the key is absent from the dict (a present key holding Python `None`
is `some PyVal.vNone`).  The five dict keys belonging to one style argument
`arg` — `arg` itself, its sequence and map names from `PARTITION_ARGS`
(e.g. `color`, `color_discrete_sequence`, `color_discrete_map`), and the
derived `attached_{arg}` and `{arg}_by` keys — are grouped into one
`StyleSlots` value, stored as a function from the style argument. -/

/-- Conversion of a table cell to a Python value. -/
def cellToPy : Cell → PyVal
  | Cell.cNone => PyVal.vNone
  | Cell.cStr s => PyVal.vStr s
  | Cell.cInt n => PyVal.vInt n

/-- The style arguments of `PARTITION_ARGS` that carry a
`(sequence, map)` pair. -/
inductive StyleArg where
  | colorA
  | patternShapeA
  | symbolA
  | sizeA
  | lineDashA
  | widthA
deriving DecidableEq, Repr

/-- The dict name of a style argument. -/
def StyleArg.name : StyleArg → String
  | StyleArg.colorA => "color"
  | StyleArg.patternShapeA => "pattern_shape"
  | StyleArg.symbolA => "symbol"
  | StyleArg.sizeA => "size"
  | StyleArg.lineDashA => "line_dash"
  | StyleArg.widthA => "width"

/-- The sequence-argument name (`PARTITION_ARGS[arg][0]`). -/
def StyleArg.seqName : StyleArg → String
  | StyleArg.colorA => "color_discrete_sequence"
  | StyleArg.patternShapeA => "pattern_shape_sequence"
  | StyleArg.symbolA => "symbol_sequence"
  | StyleArg.sizeA => "size_sequence"
  | StyleArg.lineDashA => "line_dash_sequence"
  | StyleArg.widthA => "width_sequence"

/-- The map-argument name (`PARTITION_ARGS[arg][1]`). -/
def StyleArg.mapName : StyleArg → String
  | StyleArg.colorA => "color_discrete_map"
  | StyleArg.patternShapeA => "pattern_shape_map"
  | StyleArg.symbolA => "symbol_map"
  | StyleArg.sizeA => "size_map"
  | StyleArg.lineDashA => "line_dash_map"
  | StyleArg.widthA => "width_map"

/-- `STYLE_DEFAULTS`: the default style palettes (the color entry is
plotly's default qualitative palette). -/
def StyleArg.styleDefault : StyleArg → PyVal
  | StyleArg.colorA => PyVal.vList
      [PyVal.vStr "#636efa", PyVal.vStr "#EF553B", PyVal.vStr "#00cc96",
       PyVal.vStr "#ab63fa", PyVal.vStr "#FFA15A", PyVal.vStr "#19d3f3",
       PyVal.vStr "#FF6692", PyVal.vStr "#B6E880", PyVal.vStr "#FF97FF",
       PyVal.vStr "#FECB52"]
  | StyleArg.patternShapeA => PyVal.vList
      [PyVal.vStr "", PyVal.vStr "/", PyVal.vStr "\\", PyVal.vStr "x",
       PyVal.vStr "+", PyVal.vStr "."]
  | StyleArg.symbolA => PyVal.vList
      [PyVal.vStr "circle", PyVal.vStr "diamond", PyVal.vStr "square",
       PyVal.vStr "x", PyVal.vStr "cross"]
  | StyleArg.sizeA => PyVal.vList
      [PyVal.vInt 4, PyVal.vInt 5, PyVal.vInt 6, PyVal.vInt 7, PyVal.vInt 8,
       PyVal.vInt 9]
  | StyleArg.lineDashA => PyVal.vList
      [PyVal.vStr "solid", PyVal.vStr "dot", PyVal.vStr "dash",
       PyVal.vStr "longdash", PyVal.vStr "dashdot", PyVal.vStr "longdashdot"]
  | StyleArg.widthA => PyVal.vList
      [PyVal.vInt 3, PyVal.vInt 4, PyVal.vInt 5, PyVal.vInt 6, PyVal.vInt 7,
       PyVal.vInt 8]

/-- The five dict entries belonging to one style argument. -/
structure StyleSlots where
  arg : Option PyVal
  seq : Option PyVal
  map : Option PyVal
  att : Option PyVal
  byF : Option PyVal

/-- The call-argument dict of one chart call. -/
structure CallArgs where
  table : Option PyVal
  x : Option PyVal
  y : Option PyVal
  byArg : Option PyVal
  byVarsArg : Option PyVal
  color_continuous_scale : Option PyVal
  colors : Option PyVal
  facet_row : Option PyVal
  facet_col : Option PyVal
  orientation : Option PyVal
  current_partition : Option PyVal
  style : StyleArg → StyleSlots
  extras : ArgsD

/-- Updating the five entries of one style argument. -/
def CallArgs.setSlot (c : CallArgs) (a : StyleArg)
    (f : StyleSlots → StyleSlots) : CallArgs :=
  { c with style := Function.update c.style a (f (c.style a)) }

theorem CallArgs.setSlot_style_same (c : CallArgs) (a : StyleArg)
    (f : StyleSlots → StyleSlots) :
    (c.setSlot a f).style a = f (c.style a) := by
  simp [CallArgs.setSlot, Function.update_same]

theorem CallArgs.setSlot_style_ne (c : CallArgs) (a b : StyleArg)
    (f : StyleSlots → StyleSlots) (h : b ≠ a) :
    (c.setSlot a f).style b = c.style b := by
  simp [CallArgs.setSlot, Function.update_noteq h]

theorem CallArgs.setSlot_byArg (c : CallArgs) (a : StyleArg)
    (f : StyleSlots → StyleSlots) : (c.setSlot a f).byArg = c.byArg := rfl

theorem CallArgs.setSlot_byVarsArg (c : CallArgs) (a : StyleArg)
    (f : StyleSlots → StyleSlots) : (c.setSlot a f).byVarsArg = c.byVarsArg := rfl

/-- Python `==` of a value against a string literal (only strings compare
equal to strings). -/
def pyEqStr (v : PyVal) (s : String) : Bool :=
  match v with
  | PyVal.vStr t => t = s
  | _ => false

/-- `isinstance(v, dict)`. -/
def PyVal.isDict : PyVal → Bool
  | PyVal.vDictS _ => true
  | _ => false

/-- The mutable `PartitionManager` attributes that `process_partitions` and
`handle_plot_by_arg` touch, alongside the args dict. -/
structure PMState where
  args : CallArgs
  by_vars : Option (List String)
  always_attached : List ((String × PyVal) × (Option PyVal × PyVal × String))
  facet_row : Option PyVal
  facet_col : Option PyVal
  marg_color : Option PyVal

/-- Embedding of `set([by_vars] if isinstance(by_vars, str) else by_vars)`:
a string becomes a singleton; iterables contribute their string members (only
string membership is ever tested against the result); non-iterables raise. -/
def byVarsSet : PyVal → Except PyErr (List String)
  | PyVal.vStr s => Except.ok [s]
  | PyVal.vList xs => Except.ok (xs.filterMap (fun v =>
      match v with | PyVal.vStr s => some s | _ => none))
  | PyVal.vTuple xs => Except.ok (xs.filterMap (fun v =>
      match v with | PyVal.vStr s => some s | _ => none))
  | _ => Except.error (PyErr.typeError "object is not iterable")

/-- Modelled from the spec: `get_unique_names(self.args["table"], [arg])` on
the current table argument - collision-free against a `Table`'s columns (the
source would fail on other values; the fresh name's exact value is immaterial
to the theorems). -/
def get_unique_name_py (tv : PyVal) (base : String) : String :=
  match tv with
  | PyVal.vTable t => get_unique_name t base
  | _ => base

/-- The numeric column set of `handle_plot_by_arg`'s prelude:
`table if isinstance(table, Table) else table.constituent_tables[0]`. -/
def pm_numeric_cols (st : PMState) : Except PyErr (List String) :=
  match st.args.table with
  | none => Except.error (PyErr.keyError "table")
  | some (PyVal.vTable t) => Except.ok (numeric_column_set t)
  | some (PyVal.vPTable _ cs) =>
      match cs with
      | [] => Except.error (PyErr.indexError "constituent_tables")
      | (_, t) :: _ => Except.ok (numeric_column_set t)
  | some _ =>
      Except.error (PyErr.attributeError "object has no attribute constituent_tables")

/-- The first step of `is_by`: `if not self.args[seq_arg]: self.args[seq_arg]
= STYLE_DEFAULTS[arg]` applied to the already-read sequence value. -/
def seqDefaulted (st : PMState) (a : StyleArg) (seqv : PyVal) : PMState :=
  if seqv.truthy then st
  else
    { st with args :=
        st.args.setSlot a (fun s => { s with seq := some a.styleDefault }) }

/-- The `always_attached` branch of `is_by`: reserve a fresh column against
the table argument, record the attachment, rename `arg` to
`attached_{arg}`. -/
def pm_is_by_attached (st1 : PMState) (a : StyleArg) (map_val : Option PyVal) :
    Except PyErr PMState :=
  match st1.args.table with
  | none => Except.error (PyErr.keyError "table")
  | some tv =>
      match (st1.args.style a).arg with
      | none => Except.error (PyErr.keyError a.name)
      | some argv =>
          Except.ok { st1 with
            always_attached := st1.always_attached ++ [((a.name, argv), (map_val, ((st1.args.style a).seq).getD PyVal.vNone, get_unique_name_py tv a.name))],
            args := st1.args.setSlot a (fun s => { s with arg := none, att := some (PyVal.vStr (get_unique_name_py tv a.name)) }) }

/-- The map normalization of the non-attached branch of `is_by`: a map equal
to `"by"` becomes `None`; a tuple keeps its second component (or `None`). -/
def mapNormalized (st1 : PMState) (a : StyleArg) (mv : PyVal) : PMState :=
  let st2 : PMState :=
    if pyEqStr mv "by" then
      { st1 with args :=
          st1.args.setSlot a (fun s => { s with map := some PyVal.vNone }) }
    else st1
  match mv with
  | PyVal.vTuple xs =>
      { st2 with args :=
          st2.args.setSlot a (fun s => { s with map := some (if xs.length = 2 then xs.getD 1 PyVal.vNone else PyVal.vNone) }) }
  | _ => st2

/-- The non-attached branch of `is_by`: normalize the map argument, then
rename `arg` to `{arg}_by`. -/
def pm_is_by_renamed (st1 : PMState) (a : StyleArg) : Except PyErr PMState :=
  match (st1.args.style a).map with
  | none => Except.error (PyErr.keyError a.mapName)
  | some mv =>
      match ((mapNormalized st1 a mv).args.style a).arg with
      | none => Except.error (PyErr.keyError a.name)
      | some argv =>
          let a2 := (mapNormalized st1 a mv).args.setSlot a (fun s => { s with arg := none, byF := some argv })
          Except.ok { mapNormalized st1 a mv with args := a2 }

/-- Embedding of `PartitionManager.is_by(arg, map_val)`: installs the default
palette when the sequence argument is falsy; in `always_attached` mode
reserves a fresh column, records the attachment and renames `arg` to
`attached_{arg}`; otherwise normalizes the map argument (`"by"` becomes
`None`; a tuple keeps its second component) and renames `arg` to
`{arg}_by`. -/
def pm_is_by (groups : List String) (st : PMState) (a : StyleArg)
    (map_val : Option PyVal) : Except PyErr PMState :=
  match (st.args.style a).seq with
  | none => Except.error (PyErr.keyError a.seqName)
  | some seqv =>
      if "always_attached" ∈ groups then
        pm_is_by_attached (seqDefaulted st a seqv) a map_val
      else pm_is_by_renamed (seqDefaulted st a seqv) a

/-- Updating `self.marg_color = args.get("color_by", None)`, done at the end
of the color branch of `handle_plot_by_arg`. -/
def markMarg (st : PMState) : PMState :=
  { st with marg_color := (st.args.style StyleArg.colorA).byF }

/-- Setting the `colors` key (`args["colors"] = args.pop("color")` in the
always-attached continuous-scale case). -/
def CallArgs.withColors (c : CallArgs) (v : Option PyVal) : CallArgs :=
  { c with colors := v }

/-- The inherit branch of the color handler: install the default palette when
`args["color_discrete_sequence"]` is falsy (a direct index) and set
`color_by` to the `by` columns. -/
def handle_color_inherit (st : PMState) : Except PyErr (PMState × Bool) :=
  match (st.args.style StyleArg.colorA).seq with
  | none => Except.error (PyErr.keyError "color_discrete_sequence")
  | some sv =>
      let a2 := (seqDefaulted st StyleArg.colorA sv).args.setSlot StyleArg.colorA (fun s => { s with byF := some (st.args.byArg.getD PyVal.vNone) })
      Except.ok (markMarg { seqDefaulted st StyleArg.colorA sv with args := a2 }, true)

/-- The `arg == "color"` branch of `PartitionManager.handle_plot_by_arg`:
map equal to `"by"` or a dict resolves by-group; `"identity"` renames to
`attached_color`; a truthy single numeric column with a continuous scale is
passed through (moved to `colors` in `always_attached` mode); any other
truthy value resolves by-group; otherwise a truthy `by` together with a
truthy sequence (or membership of `"color"` in `by_vars`) inherits the `by`
columns into `color_by`.  The returned flag records whether the argument was
resolved to by-group styling. -/
def handle_color (groups : List String) (st : PMState) (val : PyVal)
    (ncols : List String) : Except PyErr (PMState × Bool) :=
  match (st.args.style StyleArg.colorA).map with
  | none => Except.error (PyErr.keyError "color_discrete_map")
  | some mv =>
      if pyEqStr mv "by" || mv.isDict then
        match pm_is_by groups st StyleArg.colorA (some mv) with
        | Except.error e => Except.error e
        | Except.ok st' => Except.ok (markMarg st', true)
      else if pyEqStr mv "identity" then
        match (st.args.style StyleArg.colorA).arg with
        | none => Except.error (PyErr.keyError "color")
        | some cv =>
            let a2 := st.args.setSlot StyleArg.colorA (fun s => { s with map := none, arg := none, att := some cv })
            Except.ok (markMarg { st with args := a2 }, false)
      else if val.truthy then
        match is_single_numeric val ncols with
        | Except.error e => Except.error e
        | Except.ok isn =>
            if isn && st.args.color_continuous_scale.isSome then
              if "always_attached" ∈ groups then
                match (st.args.style StyleArg.colorA).arg with
                | none => Except.error (PyErr.keyError "color")
                | some cv =>
                    let a2 := CallArgs.withColors (st.args.setSlot StyleArg.colorA (fun s => { s with arg := none })) (some cv)
                    Except.ok (markMarg { st with args := a2 }, false)
              else Except.ok (markMarg st, false)
            else
              match pm_is_by groups st StyleArg.colorA (some mv) with
              | Except.error e => Except.error e
              | Except.ok st' => Except.ok (markMarg st', true)
      else if (st.args.byArg.getD PyVal.vNone).truthy then
        if ((st.args.style StyleArg.colorA).seq.getD PyVal.vNone).truthy then
          handle_color_inherit st
        else
          match st.by_vars with
          | none =>
              Except.error (PyErr.typeError "argument of type NoneType is not iterable")
          | some bl =>
              if "color" ∈ bl then handle_color_inherit st
              else Except.ok (markMarg st, false)
      else Except.ok (markMarg st, false)

/-- The generic inherit branch for a non-color style argument `a`: install
the default palette when the sequence value read at branch entry is falsy and
set `{arg}_by` to the `by` columns. -/
def handle_style_inherit (st : PMState) (a : StyleArg) (seqv : PyVal) :
    Except PyErr (PMState × Bool) :=
  let a2 := (seqDefaulted st a seqv).args.setSlot a (fun s => { s with byF := some (st.args.byArg.getD PyVal.vNone) })
  Except.ok ({ seqDefaulted st a seqv with args := a2 }, true)

/-- The `arg == "size"` branch of `PartitionManager.handle_plot_by_arg` (no
identity mode, no continuous-scale interplay, and `is_by` is called without a
map value). -/
def handle_size (groups : List String) (st : PMState) (val : PyVal)
    (ncols : List String) : Except PyErr (PMState × Bool) :=
  match (st.args.style StyleArg.sizeA).map with
  | none => Except.error (PyErr.keyError "size_map")
  | some mv =>
      if pyEqStr mv "by" || mv.isDict then
        match pm_is_by groups st StyleArg.sizeA none with
        | Except.error e => Except.error e
        | Except.ok st' => Except.ok (st', true)
      else if val.truthy then
        match is_single_numeric val ncols with
        | Except.error e => Except.error e
        | Except.ok isn =>
            if isn then Except.ok (st, false)
            else
              match pm_is_by groups st StyleArg.sizeA none with
              | Except.error e => Except.error e
              | Except.ok st' => Except.ok (st', true)
      else if (st.args.byArg.getD PyVal.vNone).truthy then
        if ((st.args.style StyleArg.sizeA).seq.getD PyVal.vNone).truthy then
          handle_style_inherit st StyleArg.sizeA
            ((st.args.style StyleArg.sizeA).seq.getD PyVal.vNone)
        else
          match st.by_vars with
          | none =>
              Except.error (PyErr.typeError "argument of type NoneType is not iterable")
          | some bl =>
              if "size" ∈ bl then
                handle_style_inherit st StyleArg.sizeA
                  ((st.args.style StyleArg.sizeA).seq.getD PyVal.vNone)
              else Except.ok (st, false)
      else Except.ok (st, false)

/-- The `arg in {"pattern_shape", "symbol", "line_dash", "width"}` branch:
both the sequence and map values are read (direct indices) at entry; an
identity map renames to `attached_{arg}`; otherwise like color without the
numeric-column and continuous-scale cases. -/
def handle_shape (groups : List String) (st : PMState) (a : StyleArg)
    (val : PyVal) : Except PyErr (PMState × Bool) :=
  match (st.args.style a).seq with
  | none => Except.error (PyErr.keyError a.seqName)
  | some seqv =>
  match (st.args.style a).map with
  | none => Except.error (PyErr.keyError a.mapName)
  | some mv =>
      if pyEqStr mv "by" || mv.isDict then
        match pm_is_by groups st a (some mv) with
        | Except.error e => Except.error e
        | Except.ok st' => Except.ok (st', true)
      else if pyEqStr mv "identity" then
        match (st.args.style a).arg with
        | none => Except.error (PyErr.keyError a.name)
        | some cv =>
            let a2 := st.args.setSlot a (fun s => { s with map := none, arg := none, att := some cv })
            Except.ok ({ st with args := a2 }, false)
      else if val.truthy then
        match pm_is_by groups st a (some mv) with
        | Except.error e => Except.error e
        | Except.ok st' => Except.ok (st', true)
      else if (st.args.byArg.getD PyVal.vNone).truthy then
        if ((st.args.style a).seq.getD PyVal.vNone).truthy then
          handle_style_inherit st a seqv
        else
          match st.by_vars with
          | none =>
              Except.error (PyErr.typeError "argument of type NoneType is not iterable")
          | some bl =>
              if a.name ∈ bl then handle_style_inherit st a seqv
              else Except.ok (st, false)
      else Except.ok (st, false)

/-- Embedding of `PartitionManager.handle_plot_by_arg(arg, val)` for the
style arguments: the numeric-column prelude followed by the per-argument
branch.  (The `arg == "by"` call falls through every branch and neither
mutates the dict nor reports columns, so it is omitted from the loop.) -/
def pm_handle_plot_by_arg (groups : List String) (st : PMState) (a : StyleArg)
    (val : PyVal) : Except PyErr (PMState × Bool) :=
  match pm_numeric_cols st with
  | Except.error e => Except.error e
  | Except.ok ncols =>
      match a with
      | StyleArg.colorA => handle_color groups st val ncols
      | StyleArg.sizeA => handle_size groups st val ncols
      | _ => handle_shape groups st a val

/-- The key row of a table row under a list of partitioning columns. -/
def keyRowOf (cols : List String) (r : Row) : Row :=
  cols.map (fun c => (c, (Row.get? r c).getD Cell.cNone))

/-- The distinct partition keys of a table, in first-appearance order. -/
def partitionKeys (t : Table) (cols : List String) : List Row :=
  distinctSeen [] (t.rows.map (keyRowOf cols))

/-- Embedding of `table.partition_by(cols)`: one constituent per distinct key
tuple, holding the rows carrying that key. -/
def Table.partition_by (t : Table) (cols : List String) :
    List (Row × Table) :=
  (partitionKeys t cols).map (fun k =>
    (k, { schema := t.schema,
          rows := t.rows.filter (fun r => decide (keyRowOf cols r = k)) }))

/-- Adding the columns reported by one style argument to the
`partition_cols` set (lists are expanded elementwise; unhashable members
raise). -/
def pcolsInsert (pcols : List PyVal) (cols : PyVal) : Except PyErr (List PyVal) :=
  match cols with
  | PyVal.vList xs =>
      if xs.any (fun v => v.isDict || (match v with | PyVal.vList _ => true | _ => false)) then
        Except.error (PyErr.typeError "unhashable type")
      else Except.ok (pcols ++ xs)
  | PyVal.vDictS _ => Except.error (PyErr.typeError "unhashable type: dict")
  | v => Except.ok (pcols ++ [v])

/-- The accumulator of the `for arg, val in list(args.items())` loop: the
manager state, `partition_map` (keyed directly by the style argument the
`arg_by[:-3]` recovery would name), the `partition_cols` set contents, and
the log of arguments that were resolved to by-group styling. -/
structure LoopAcc where
  st : PMState
  pmap : List (StyleArg × PyVal)
  pcols : List PyVal
  log : List StyleArg

/-- Recording the outcome of one handled style argument: the by-group log
entry, and the reported `{arg}_by` columns into `partition_map` and
`partition_cols` when truthy. -/
def loop_style_record (acc : LoopAcc) (a : StyleArg) (st' : PMState)
    (resolved : Bool) : Except PyErr LoopAcc :=
  let log' := if resolved then acc.log ++ [a] else acc.log
  let cols := (st'.args.style a).byF.getD PyVal.vNone
  if cols.truthy then
    match pcolsInsert acc.pcols cols with
    | Except.error e => Except.error e
    | Except.ok pcols' =>
        Except.ok ⟨st', acc.pmap ++ [(a, cols)], pcols', log'⟩
  else Except.ok ⟨st', acc.pmap, acc.pcols, log'⟩

/-- One style-argument iteration of the loop body of `process_partitions`:
skipped when the key is absent or when both its value and `args.get("by")`
are falsy; otherwise the handler runs and its reported columns are recorded
by `loop_style_record`. -/
def loop_style_step (groups : List String) (acc : LoopAcc) (a : StyleArg) :
    Except PyErr LoopAcc :=
  match (acc.st.args.style a).arg with
  | none => Except.ok acc
  | some val =>
      if val.truthy || (acc.st.args.byArg.getD PyVal.vNone).truthy then
        match pm_handle_plot_by_arg groups acc.st a val with
        | Except.error e => Except.error e
        | Except.ok pr => loop_style_record acc a pr.1 pr.2
      else Except.ok acc

/-- One facet iteration of the loop (`elif val and arg in FACET_ARGS`). -/
def loop_facet_step (acc : LoopAcc) (isRow : Bool) : Except PyErr LoopAcc :=
  match (if isRow then acc.st.args.facet_row else acc.st.args.facet_col) with
  | none => Except.ok acc
  | some v =>
      if v.truthy then
        match pcolsInsert acc.pcols v with
        | Except.error e => Except.error e
        | Except.ok pcols' =>
            let st' : PMState :=
              if isRow then { acc.st with facet_row := some v }
              else { acc.st with facet_col := some v }
            Except.ok ⟨st', acc.pmap, pcols', acc.log⟩
      else Except.ok acc

/-- Folding the loop over the style arguments. -/
def loop_styles (groups : List String) : LoopAcc → List StyleArg → Except PyErr LoopAcc
  | acc, [] => Except.ok acc
  | acc, a :: rest =>
      match loop_style_step groups acc a with
      | Except.error e => Except.error e
      | Except.ok acc' => loop_styles groups acc' rest

/-- The `PARTITION_ARGS` iteration order of the style arguments. -/
def styleOrder : List StyleArg :=
  [StyleArg.colorA, StyleArg.patternShapeA, StyleArg.symbolA, StyleArg.sizeA,
   StyleArg.lineDashA, StyleArg.widthA]

/-- Embedding of `UnivariatePreprocesser.__init__` on the args dict: reads
`args["table"]` and `args["x"]`, chooses the univariate axis, stores the
orientation into the dict, and reads `args[var]`. -/
def univariate_init_args (c : CallArgs) : Except PyErr CallArgs :=
  match c.table with
  | none => Except.error (PyErr.keyError "table")
  | some _ =>
  match c.x with
  | none => Except.error (PyErr.keyError "x")
  | some xv =>
      let var := if xv.truthy then "x" else "y"
      let c1 : CallArgs :=
        { c with orientation := some (PyVal.vStr (if var = "y" then "h" else "v")) }
      if var = "x" then Except.ok c1
      else
        match c1.y with
        | none => Except.error (PyErr.keyError "y")
        | some _ => Except.ok c1

/-- Embedding of the `Preprocesser` construction inside `process_partitions`
(line 294) as it affects the args dict and control flow: the
`preprocess_hist` branch calls `HistPreprocesser(self.args, self.pivot_vars)`
against a 1-parameter `__init__` and raises `TypeError`; `preprocess_freq`
runs the univariate constructor (mutating `orientation`); the remaining
branches store references without touching the dict. -/
def pm_prepare_preprocess (groups : List String) (c : CallArgs) :
    Except PyErr CallArgs :=
  if "preprocess_hist" ∈ groups then
    Except.error (PyErr.typeError
      "HistPreprocesser.init takes 2 positional arguments but 3 were given")
  else if "preprocess_freq" ∈ groups then univariate_init_args c
  else Except.ok c

/-- The `[col for col in cols]` / scalar normalization
(`val if isinstance(val, list) else [val]`). -/
def strCols (cols : PyVal) : List PyVal :=
  match cols with
  | PyVal.vList xs => xs
  | v => [v]

/-- Embedding of `get_partition_key_column_tuples(key_column_table, cols)`:
the distinct key rows of the partitioned table projected to the named
columns, as a list of tuples. -/
def keysOf (keyRows : List Row) (cols : PyVal) : PyVal :=
  PyVal.vList (keyRows.map (fun kr =>
    PyVal.vTuple ((strCols cols).map (fun cv =>
      match cv with
      | PyVal.vStr cn => cellToPy ((Row.get? kr cn).getD Cell.cNone)
      | _ => PyVal.vNone))))

/-- One entry of the composite-replacement loop (lines 301-315): the style
argument's sequence is replaced by the `{ls, map, keys}` record and the
`{arg}_by` and map keys are popped. -/
def composite_step (keyRows : List Row) (st : PMState)
    (entry : StyleArg × PyVal) : Except PyErr PMState :=
  match (st.args.style entry.1).seq with
  | none => Except.error (PyErr.keyError entry.1.seqName)
  | some seqv =>
  match (st.args.style entry.1).map with
  | none => Except.error (PyErr.keyError entry.1.mapName)
  | some mapv =>
  match (st.args.style entry.1).byF with
  | none => Except.error (PyErr.keyError (entry.1.name ++ "_by"))
  | some _ =>
      let a2 := st.args.setSlot entry.1 (fun s =>
        { s with seq := some (PyVal.vDictS [("ls", seqv), ("map", mapv), ("keys", keysOf keyRows entry.2)]), byF := none, map := none })
      Except.ok { st with args := a2 }

/-- Folding the composite replacement over `partition_map`. -/
def composite_fold (keyRows : List Row) :
    PMState → List (StyleArg × PyVal) → Except PyErr PMState
  | st, [] => Except.ok st
  | st, e :: rest =>
      match composite_step keyRows st e with
      | Except.error e' => Except.error e'
      | Except.ok st' => composite_fold keyRows st' rest

/-- Extracting the string members of the `partition_cols` set for
`partition_by` (set semantics: deduplicated; a non-string column name fails
inside the engine call). -/
def toPartitionCols : List PyVal → Except PyErr (List String)
  | [] => Except.ok []
  | PyVal.vStr s :: rest =>
      match toPartitionCols rest with
      | Except.error e => Except.error e
      | Except.ok l => Except.ok (if s ∈ l then l else s :: l)
  | _ :: _ => Except.error (PyErr.typeError "column name must be a string")

/-- The result of `process_partitions`: the returned (partitioned or plain)
table, the final manager state, and the log of style arguments that were
resolved to by-group styling during the run. -/
structure ProcResult where
  ret : PyVal
  state : PMState
  byGroupLog : List StyleArg

/-- The partitioned tail of `process_partitions`: the composite replacement
of by-group sequences over `partition_map`, the pop of `by` (a direct
`args.pop("by")`), the pop of `by_vars`, and the partitioned-table return. -/
def pp_partition_path (st4 : PMState)
    (logv : List StyleArg) (pmap : List (StyleArg × PyVal))
    (kc : List String) (cs : List (Row × Table)) : Except PyErr ProcResult :=
  match composite_fold (cs.map Prod.fst) st4 pmap with
  | Except.error e => Except.error e
  | Except.ok st5 =>
      match st5.args.byArg with
      | none => Except.error (PyErr.keyError "by")
      | some _ =>
          Except.ok ⟨PyVal.vPTable kc cs,
            { st5 with args := { st5.args with byArg := none, byVarsArg := none } },
            logv⟩

/-- The tail of `process_partitions` after the argument loop: the
`Preprocesser` construction, then either the plain path (no partitioning
columns) or the physical split and the partitioned path. -/
def pp_after_loop (groups : List String)
    (pt0 : Option (List String × List (Row × Table))) (acc3 : LoopAcc) :
    Except PyErr ProcResult :=
  match pm_prepare_preprocess groups acc3.st.args with
  | Except.error e => Except.error e
  | Except.ok cPrep =>
      let st4 : PMState := { acc3.st with args := cPrep }
      if acc3.pcols.isEmpty then
        match st4.args.table with
        | none => Except.error (PyErr.keyError "table")
        | some rtv =>
            Except.ok ⟨rtv,
              { st4 with args := { st4.args with byArg := none, byVarsArg := none } },
              acc3.log⟩
      else
        match (match pt0 with
               | some p => Except.ok p
               | none =>
                   match toPartitionCols acc3.pcols with
                   | Except.error e => Except.error e
                   | Except.ok colStrs =>
                       match st4.args.table with
                       | some (PyVal.vTable t) =>
                           Except.ok (colStrs, t.partition_by colStrs)
                       | some _ =>
                           Except.error (PyErr.attributeError
                             "object has no attribute partition_by")
                       | none => Except.error (PyErr.keyError "table")) with
        | Except.error e => Except.error e
        | Except.ok (kc, cs) => pp_partition_path st4 acc3.log acc3.pmap kc cs

/-- The `isinstance(self.args["table"], PartitionedTable)` check at the top
of `process_partitions`: an already-partitioned table argument short-circuits
the physical split. -/
def pt0Of : PyVal → Option (List String × List (Row × Table))
  | PyVal.vPTable kc cs => some (kc, cs)
  | _ => none

/-- Embedding of `PartitionManager.process_partitions`: the `by_vars`
extraction and pop, the partitioned-table check, the argument loop, the
`Preprocesser` construction, and then either the partitioned path (physical
split if needed, composite replacement of by-group sequences, popping `by`
and `by_vars`, returning the partitioned table) or the plain path (popping
`by`/`by_vars` with defaults and returning the table argument). -/
def process_partitions (groups : List String) (st0 : PMState) :
    Except PyErr ProcResult :=
  match (if (st0.args.byVarsArg.getD PyVal.vNone).truthy then
           (byVarsSet (st0.args.byVarsArg.getD PyVal.vNone)).map some
         else Except.ok st0.by_vars) with
  | Except.error e => Except.error e
  | Except.ok byv =>
      let st1 : PMState :=
        { st0 with by_vars := byv, args := { st0.args with byVarsArg := none } }
      match st1.args.table with
      | none => Except.error (PyErr.keyError "table")
      | some tv =>
          match loop_styles groups ⟨st1, [], [], []⟩ styleOrder with
          | Except.error e => Except.error e
          | Except.ok acc1 =>
          match loop_facet_step acc1 true with
          | Except.error e => Except.error e
          | Except.ok acc2 =>
          match loop_facet_step acc2 false with
          | Except.error e => Except.error e
          | Except.ok acc3 => pp_after_loop groups (pt0Of tv) acc3

/-! ### The no-unresolved-directives invariant (C9) -/

theorem CallArgs.setSlot_table (c : CallArgs) (a : StyleArg)
    (f : StyleSlots → StyleSlots) : (c.setSlot a f).table = c.table := rfl

theorem CallArgs.withColors_style (c : CallArgs) (v : Option PyVal) :
    (c.withColors v).style = c.style := rfl

theorem CallArgs.withColors_byArg (c : CallArgs) (v : Option PyVal) :
    (c.withColors v).byArg = c.byArg := rfl

theorem CallArgs.withColors_byVarsArg (c : CallArgs) (v : Option PyVal) :
    (c.withColors v).byVarsArg = c.byVarsArg := rfl

theorem markMarg_args (st : PMState) : (markMarg st).args = st.args := rfl

/-- A style argument is in resolved form in a dict: renamed to an
`attached_` key, renamed to an `_by` key, or its sequence replaced by the
composite `{ls, map, keys}` record. -/
def resolvedOk (c : CallArgs) (a : StyleArg) : Prop :=
  (c.style a).att.isSome ∨ (c.style a).byF.isSome ∨
  ∃ ls mp ks, (c.style a).seq
      = some (PyVal.vDictS [("ls", ls), ("map", mp), ("keys", ks)])

/-- The frame of one state transformation with respect to the directive
invariant: `by` and `by_vars` untouched, other style arguments' slots
untouched, and an established rename of `a` never lost. -/
def stepFrame (a : StyleArg) (c c' : CallArgs) : Prop :=
  c'.byArg = c.byArg ∧ c'.byVarsArg = c.byVarsArg ∧
  (∀ b, b ≠ a → c'.style b = c.style b) ∧
  (((c.style a).att.isSome ∨ (c.style a).byF.isSome) →
    ((c'.style a).att.isSome ∨ (c'.style a).byF.isSome))

theorem mapOnlySet_fields (st : PMState) (a : StyleArg) (v : Option PyVal) :
    ({ st with args := st.args.setSlot a (fun s => { s with map := v }) } : PMState).args.byArg = st.args.byArg
    ∧ ({ st with args := st.args.setSlot a (fun s => { s with map := v }) } : PMState).args.byVarsArg = st.args.byVarsArg
    ∧ (∀ b, b ≠ a → ({ st with args := st.args.setSlot a (fun s => { s with map := v }) } : PMState).args.style b = st.args.style b)
    ∧ (({ st with args := st.args.setSlot a (fun s => { s with map := v }) } : PMState).args.style a).arg = (st.args.style a).arg
    ∧ (({ st with args := st.args.setSlot a (fun s => { s with map := v }) } : PMState).args.style a).att = (st.args.style a).att
    ∧ (({ st with args := st.args.setSlot a (fun s => { s with map := v }) } : PMState).args.style a).byF = (st.args.style a).byF := by
  refine ⟨rfl, rfl, ?_, ?_, ?_, ?_⟩
  · intro b hb
    exact CallArgs.setSlot_style_ne st.args a b (fun s => { s with map := v }) hb
  · show ((st.args.setSlot a (fun s => { s with map := v })).style a).arg = _
    rw [CallArgs.setSlot_style_same]
  · show ((st.args.setSlot a (fun s => { s with map := v })).style a).att = _
    rw [CallArgs.setSlot_style_same]
  · show ((st.args.setSlot a (fun s => { s with map := v })).style a).byF = _
    rw [CallArgs.setSlot_style_same]

theorem seqDefaulted_fields (st : PMState) (a : StyleArg) (v : PyVal) :
    (seqDefaulted st a v).args.byArg = st.args.byArg
    ∧ (seqDefaulted st a v).args.byVarsArg = st.args.byVarsArg
    ∧ (∀ b, b ≠ a → (seqDefaulted st a v).args.style b = st.args.style b)
    ∧ ((seqDefaulted st a v).args.style a).arg = (st.args.style a).arg
    ∧ ((seqDefaulted st a v).args.style a).att = (st.args.style a).att
    ∧ ((seqDefaulted st a v).args.style a).byF = (st.args.style a).byF
    ∧ ((seqDefaulted st a v).args.style a).map = (st.args.style a).map
    ∧ (seqDefaulted st a v).args.table = st.args.table := by
  rw [seqDefaulted]
  by_cases h : v.truthy
  · rw [if_pos h]
    exact ⟨rfl, rfl, fun b hb => rfl, rfl, rfl, rfl, rfl, rfl⟩
  · rw [if_neg h]
    refine ⟨rfl, rfl, ?_, ?_, ?_, ?_, ?_, rfl⟩
    · intro b hb
      exact CallArgs.setSlot_style_ne st.args a b (fun s => { s with seq := some a.styleDefault }) hb
    · show ((st.args.setSlot a (fun s => { s with seq := some a.styleDefault })).style a).arg = _
      rw [CallArgs.setSlot_style_same]
    · show ((st.args.setSlot a (fun s => { s with seq := some a.styleDefault })).style a).att = _
      rw [CallArgs.setSlot_style_same]
    · show ((st.args.setSlot a (fun s => { s with seq := some a.styleDefault })).style a).byF = _
      rw [CallArgs.setSlot_style_same]
    · show ((st.args.setSlot a (fun s => { s with seq := some a.styleDefault })).style a).map = _
      rw [CallArgs.setSlot_style_same]

theorem pm_is_by_attached_spec (st1 : PMState) (a : StyleArg)
    (mv : Option PyVal) (st' : PMState)
    (h : pm_is_by_attached st1 a mv = Except.ok st') :
    st'.args.byArg = st1.args.byArg
    ∧ st'.args.byVarsArg = st1.args.byVarsArg
    ∧ (∀ b, b ≠ a → st'.args.style b = st1.args.style b)
    ∧ (st'.args.style a).att.isSome := by
  rw [pm_is_by_attached] at h
  cases htv : st1.args.table with
  | none => rw [htv] at h; exact Except.noConfusion h
  | some tv =>
      rw [htv] at h
      cases harg : (st1.args.style a).arg with
      | none => rw [harg] at h; exact Except.noConfusion h
      | some argv =>
          rw [harg] at h
          injection h with h'
          subst h'
          refine ⟨rfl, rfl, ?_, ?_⟩
          · intro b hb
            exact CallArgs.setSlot_style_ne st1.args a b (fun s => { s with arg := none, att := some (PyVal.vStr (get_unique_name_py tv a.name)) }) hb
          · show ((st1.args.setSlot a (fun s => { s with arg := none, att := some (PyVal.vStr (get_unique_name_py tv a.name)) })).style a).att.isSome = true
            rw [CallArgs.setSlot_style_same]
            rfl

theorem mapNormalized_fields (st1 : PMState) (a : StyleArg) (mv : PyVal) :
    (mapNormalized st1 a mv).args.byArg = st1.args.byArg
    ∧ (mapNormalized st1 a mv).args.byVarsArg = st1.args.byVarsArg
    ∧ (∀ b, b ≠ a → (mapNormalized st1 a mv).args.style b = st1.args.style b)
    ∧ ((mapNormalized st1 a mv).args.style a).arg = (st1.args.style a).arg
    ∧ ((mapNormalized st1 a mv).args.style a).att = (st1.args.style a).att
    ∧ ((mapNormalized st1 a mv).args.style a).byF = (st1.args.style a).byF := by
  cases mv with
  | vStr s =>
      have heq : mapNormalized st1 a (PyVal.vStr s)
          = if pyEqStr (PyVal.vStr s) "by"
            then { st1 with args := st1.args.setSlot a (fun s' => { s' with map := some PyVal.vNone }) }
            else st1 := rfl
      rw [heq]
      by_cases hs : pyEqStr (PyVal.vStr s) "by"
      · rw [if_pos hs]
        exact mapOnlySet_fields st1 a (some PyVal.vNone)
      · rw [if_neg hs]
        exact ⟨rfl, rfl, fun b hb => rfl, rfl, rfl, rfl⟩
  | vTuple xs =>
      have heq : mapNormalized st1 a (PyVal.vTuple xs)
          = { st1 with args := st1.args.setSlot a (fun s => { s with map := some (if xs.length = 2 then xs.getD 1 PyVal.vNone else PyVal.vNone) }) } := rfl
      rw [heq]
      exact mapOnlySet_fields st1 a _
  | vNone => exact ⟨rfl, rfl, fun b hb => rfl, rfl, rfl, rfl⟩
  | vBool b => exact ⟨rfl, rfl, fun b hb => rfl, rfl, rfl, rfl⟩
  | vInt n => exact ⟨rfl, rfl, fun b hb => rfl, rfl, rfl, rfl⟩
  | vList xs => exact ⟨rfl, rfl, fun b hb => rfl, rfl, rfl, rfl⟩
  | vDictS es => exact ⟨rfl, rfl, fun b hb => rfl, rfl, rfl, rfl⟩
  | vTable t => exact ⟨rfl, rfl, fun b hb => rfl, rfl, rfl, rfl⟩
  | vPTable kc cs => exact ⟨rfl, rfl, fun b hb => rfl, rfl, rfl, rfl⟩

theorem pm_is_by_renamed_spec (st1 : PMState) (a : StyleArg) (st' : PMState)
    (h : pm_is_by_renamed st1 a = Except.ok st') :
    st'.args.byArg = st1.args.byArg
    ∧ st'.args.byVarsArg = st1.args.byVarsArg
    ∧ (∀ b, b ≠ a → st'.args.style b = st1.args.style b)
    ∧ (st'.args.style a).byF.isSome := by
  rw [pm_is_by_renamed] at h
  cases hm : (st1.args.style a).map with
  | none => rw [hm] at h; exact Except.noConfusion h
  | some mv =>
      rw [hm] at h
      replace h : (match ((mapNormalized st1 a mv).args.style a).arg with
          | none => (Except.error (PyErr.keyError a.name) : Except PyErr PMState)
          | some argv =>
              Except.ok { mapNormalized st1 a mv with
                args := (mapNormalized st1 a mv).args.setSlot a
                  (fun s => { s with arg := none, byF := some argv }) })
          = Except.ok st' := h
      cases harg : ((mapNormalized st1 a mv).args.style a).arg with
      | none => rw [harg] at h; exact Except.noConfusion h
      | some argv =>
          rw [harg] at h
          injection h with h'
          subst h'
          obtain ⟨hb, hbv, hsty, _, _, _⟩ := mapNormalized_fields st1 a mv
          refine ⟨hb, hbv, ?_, ?_⟩
          · intro b hbne
            have h1 : (((mapNormalized st1 a mv).args.setSlot a (fun s => { s with arg := none, byF := some argv })).style b) = (mapNormalized st1 a mv).args.style b :=
              CallArgs.setSlot_style_ne (mapNormalized st1 a mv).args a b _ hbne
            exact h1.trans (hsty b hbne)
          · show (((mapNormalized st1 a mv).args.setSlot a (fun s => { s with arg := none, byF := some argv })).style a).byF.isSome = true
            rw [CallArgs.setSlot_style_same]
            rfl

theorem pm_is_by_spec (groups : List String) (st : PMState) (a : StyleArg)
    (mv : Option PyVal) (st' : PMState)
    (h : pm_is_by groups st a mv = Except.ok st') :
    st'.args.byArg = st.args.byArg
    ∧ st'.args.byVarsArg = st.args.byVarsArg
    ∧ (∀ b, b ≠ a → st'.args.style b = st.args.style b)
    ∧ ((st'.args.style a).att.isSome ∨ (st'.args.style a).byF.isSome) := by
  rw [pm_is_by] at h
  cases hs : (st.args.style a).seq with
  | none => rw [hs] at h; exact Except.noConfusion h
  | some seqv =>
      rw [hs] at h
      replace h : (if "always_attached" ∈ groups
          then pm_is_by_attached (seqDefaulted st a seqv) a mv
          else pm_is_by_renamed (seqDefaulted st a seqv) a) = Except.ok st' := h
      obtain ⟨db, dbv, dsty, _, _, _, _, _⟩ := seqDefaulted_fields st a seqv
      by_cases hg : "always_attached" ∈ groups
      · rw [if_pos hg] at h
        obtain ⟨b1, b2, b3, b4⟩ := pm_is_by_attached_spec (seqDefaulted st a seqv) a mv st' h
        exact ⟨b1.trans db, b2.trans dbv,
          fun b hb => (b3 b hb).trans (dsty b hb), Or.inl b4⟩
      · rw [if_neg hg] at h
        obtain ⟨b1, b2, b3, b4⟩ := pm_is_by_renamed_spec (seqDefaulted st a seqv) a st' h
        exact ⟨b1.trans db, b2.trans dbv,
          fun b hb => (b3 b hb).trans (dsty b hb), Or.inr b4⟩

theorem handle_color_inherit_spec (st st' : PMState) (r : Bool)
    (h : handle_color_inherit st = Except.ok (st', r)) :
    st'.args.byArg = st.args.byArg
    ∧ st'.args.byVarsArg = st.args.byVarsArg
    ∧ (∀ b, b ≠ StyleArg.colorA → st'.args.style b = st.args.style b)
    ∧ (st'.args.style StyleArg.colorA).byF.isSome := by
  rw [handle_color_inherit] at h
  cases hs : (st.args.style StyleArg.colorA).seq with
  | none => rw [hs] at h; exact Except.noConfusion h
  | some sv =>
      rw [hs] at h
      injection h with h'
      have h1 : st' = markMarg { seqDefaulted st StyleArg.colorA sv with args := (seqDefaulted st StyleArg.colorA sv).args.setSlot StyleArg.colorA (fun s => { s with byF := some (st.args.byArg.getD PyVal.vNone) }) } :=
        (congrArg Prod.fst h').symm
      subst h1
      obtain ⟨db, dbv, dsty, _, _, _, _, _⟩ := seqDefaulted_fields st StyleArg.colorA sv
      refine ⟨?_, ?_, ?_, ?_⟩
      · exact db
      · exact dbv
      · intro b hb
        have h2 : (((seqDefaulted st StyleArg.colorA sv).args.setSlot StyleArg.colorA (fun s => { s with byF := some (st.args.byArg.getD PyVal.vNone) })).style b) = (seqDefaulted st StyleArg.colorA sv).args.style b :=
          CallArgs.setSlot_style_ne (seqDefaulted st StyleArg.colorA sv).args StyleArg.colorA b _ hb
        exact h2.trans (dsty b hb)
      · show (((seqDefaulted st StyleArg.colorA sv).args.setSlot StyleArg.colorA (fun s => { s with byF := some (st.args.byArg.getD PyVal.vNone) })).style StyleArg.colorA).byF.isSome = true
        rw [CallArgs.setSlot_style_same]
        rfl

theorem handle_style_inherit_spec (st : PMState) (a : StyleArg) (seqv : PyVal)
    (st' : PMState) (r : Bool)
    (h : handle_style_inherit st a seqv = Except.ok (st', r)) :
    st'.args.byArg = st.args.byArg
    ∧ st'.args.byVarsArg = st.args.byVarsArg
    ∧ (∀ b, b ≠ a → st'.args.style b = st.args.style b)
    ∧ (st'.args.style a).byF.isSome := by
  rw [handle_style_inherit] at h
  injection h with h'
  have h1 : st' = { seqDefaulted st a seqv with args := (seqDefaulted st a seqv).args.setSlot a (fun s => { s with byF := some (st.args.byArg.getD PyVal.vNone) }) } :=
    (congrArg Prod.fst h').symm
  subst h1
  obtain ⟨db, dbv, dsty, _, _, _, _, _⟩ := seqDefaulted_fields st a seqv
  refine ⟨db, dbv, ?_, ?_⟩
  · intro b hb
    have h2 : (((seqDefaulted st a seqv).args.setSlot a (fun s => { s with byF := some (st.args.byArg.getD PyVal.vNone) })).style b) = (seqDefaulted st a seqv).args.style b :=
      CallArgs.setSlot_style_ne (seqDefaulted st a seqv).args a b _ hb
    exact h2.trans (dsty b hb)
  · show (((seqDefaulted st a seqv).args.setSlot a (fun s => { s with byF := some (st.args.byArg.getD PyVal.vNone) })).style a).byF.isSome = true
    rw [CallArgs.setSlot_style_same]
    rfl

theorem handle_color_spec (groups : List String) (st : PMState) (val : PyVal)
    (ncols : List String) (st' : PMState) (r : Bool)
    (h : handle_color groups st val ncols = Except.ok (st', r)) :
    st'.args.byArg = st.args.byArg
    ∧ st'.args.byVarsArg = st.args.byVarsArg
    ∧ (∀ b, b ≠ StyleArg.colorA → st'.args.style b = st.args.style b)
    ∧ (r = true →
        ((st'.args.style StyleArg.colorA).att.isSome
          ∨ (st'.args.style StyleArg.colorA).byF.isSome))
    ∧ (((st.args.style StyleArg.colorA).att.isSome
          ∨ (st.args.style StyleArg.colorA).byF.isSome) →
        ((st'.args.style StyleArg.colorA).att.isSome
          ∨ (st'.args.style StyleArg.colorA).byF.isSome)) := by
  rw [handle_color] at h
  cases hm : (st.args.style StyleArg.colorA).map with
  | none => rw [hm] at h; exact Except.noConfusion h
  | some mv =>
      rw [hm] at h
      replace h : (if pyEqStr mv "by" || mv.isDict then
          match pm_is_by groups st StyleArg.colorA (some mv) with
          | Except.error e => Except.error e
          | Except.ok st'' => Except.ok (markMarg st'', true)
        else if pyEqStr mv "identity" then
          match (st.args.style StyleArg.colorA).arg with
          | none => Except.error (PyErr.keyError "color")
          | some cv =>
              Except.ok (markMarg { st with args := st.args.setSlot StyleArg.colorA (fun s => { s with map := none, arg := none, att := some cv }) }, false)
        else if val.truthy then
          match is_single_numeric val ncols with
          | Except.error e => Except.error e
          | Except.ok isn =>
              if isn && st.args.color_continuous_scale.isSome then
                if "always_attached" ∈ groups then
                  match (st.args.style StyleArg.colorA).arg with
                  | none => Except.error (PyErr.keyError "color")
                  | some cv =>
                      Except.ok (markMarg { st with args := CallArgs.withColors (st.args.setSlot StyleArg.colorA (fun s => { s with arg := none })) (some cv) }, false)
                else Except.ok (markMarg st, false)
              else
                match pm_is_by groups st StyleArg.colorA (some mv) with
                | Except.error e => Except.error e
                | Except.ok st'' => Except.ok (markMarg st'', true)
        else if (st.args.byArg.getD PyVal.vNone).truthy then
          if ((st.args.style StyleArg.colorA).seq.getD PyVal.vNone).truthy then
            handle_color_inherit st
          else
            match st.by_vars with
            | none =>
                Except.error (PyErr.typeError "argument of type NoneType is not iterable")
            | some bl =>
                if "color" ∈ bl then handle_color_inherit st
                else Except.ok (markMarg st, false)
        else Except.ok (markMarg st, false)) = Except.ok (st', r) := h
      by_cases h1 : (pyEqStr mv "by" || mv.isDict) = true
      · rw [if_pos h1] at h
        cases hpb : pm_is_by groups st StyleArg.colorA (some mv) with
        | error e => rw [hpb] at h; exact Except.noConfusion h
        | ok st2 =>
            rw [hpb] at h
            injection h with h'
            have hst : st' = markMarg st2 := (congrArg Prod.fst h').symm
            have hr : r = true := (congrArg Prod.snd h').symm
            subst hst; subst hr
            obtain ⟨b1, b2, b3, b4⟩ := pm_is_by_spec groups st StyleArg.colorA (some mv) st2 hpb
            exact ⟨b1, b2, b3, fun _ => b4, fun _ => b4⟩
      · rw [if_neg h1] at h
        by_cases h2 : pyEqStr mv "identity" = true
        · rw [if_pos h2] at h
          cases harg : (st.args.style StyleArg.colorA).arg with
          | none => rw [harg] at h; exact Except.noConfusion h
          | some cv =>
              rw [harg] at h
              injection h with h'
              have hst : st' = markMarg { st with args := st.args.setSlot StyleArg.colorA (fun s => { s with map := none, arg := none, att := some cv }) } := (congrArg Prod.fst h').symm
              have hr : r = false := (congrArg Prod.snd h').symm
              subst hst; subst hr
              have hatt : ((st.args.setSlot StyleArg.colorA (fun s => { s with map := none, arg := none, att := some cv })).style StyleArg.colorA).att.isSome = true := by
                rw [CallArgs.setSlot_style_same]; rfl
              refine ⟨rfl, rfl, ?_, ?_, ?_⟩
              · intro b hb
                show ((st.args.setSlot StyleArg.colorA (fun s => { s with map := none, arg := none, att := some cv })).style b) = _
                exact CallArgs.setSlot_style_ne st.args StyleArg.colorA b _ hb
              · intro hcontra; exact absurd hcontra (by simp)
              · intro _; exact Or.inl hatt
        · rw [if_neg h2] at h
          by_cases h3 : val.truthy = true
          · rw [if_pos h3] at h
            cases hisn : is_single_numeric val ncols with
            | error e => rw [hisn] at h; exact Except.noConfusion h
            | ok isn =>
                rw [hisn] at h
                replace h : (if isn && st.args.color_continuous_scale.isSome then
                    if "always_attached" ∈ groups then
                      match (st.args.style StyleArg.colorA).arg with
                      | none => Except.error (PyErr.keyError "color")
                      | some cv =>
                          Except.ok (markMarg { st with args := CallArgs.withColors (st.args.setSlot StyleArg.colorA (fun s => { s with arg := none })) (some cv) }, false)
                    else Except.ok (markMarg st, false)
                  else
                    match pm_is_by groups st StyleArg.colorA (some mv) with
                    | Except.error e => Except.error e
                    | Except.ok st'' => Except.ok (markMarg st'', true)) = Except.ok (st', r) := h
                by_cases h4 : (isn && st.args.color_continuous_scale.isSome) = true
                · rw [if_pos h4] at h
                  by_cases h5 : "always_attached" ∈ groups
                  · rw [if_pos h5] at h
                    cases harg : (st.args.style StyleArg.colorA).arg with
                    | none => rw [harg] at h; exact Except.noConfusion h
                    | some cv =>
                        rw [harg] at h
                        injection h with h'
                        have hst : st' = markMarg { st with args := CallArgs.withColors (st.args.setSlot StyleArg.colorA (fun s => { s with arg := none })) (some cv) } := (congrArg Prod.fst h').symm
                        have hr : r = false := (congrArg Prod.snd h').symm
                        subst hst; subst hr
                        have hsl : ((CallArgs.withColors (st.args.setSlot StyleArg.colorA (fun s => { s with arg := none })) (some cv)).style StyleArg.colorA) = { st.args.style StyleArg.colorA with arg := none } := by
                          rw [CallArgs.withColors_style, CallArgs.setSlot_style_same]
                        refine ⟨rfl, rfl, ?_, ?_, ?_⟩
                        · intro b hb
                          show ((CallArgs.withColors (st.args.setSlot StyleArg.colorA (fun s => { s with arg := none })) (some cv)).style b) = _
                          rw [CallArgs.withColors_style]
                          exact CallArgs.setSlot_style_ne st.args StyleArg.colorA b _ hb
                        · intro hcontra; exact absurd hcontra (by simp)
                        · intro hmono
                          show ((CallArgs.withColors (st.args.setSlot StyleArg.colorA (fun s => { s with arg := none })) (some cv)).style StyleArg.colorA).att.isSome = true ∨ ((CallArgs.withColors (st.args.setSlot StyleArg.colorA (fun s => { s with arg := none })) (some cv)).style StyleArg.colorA).byF.isSome = true
                          rw [hsl]
                          exact hmono
                  · rw [if_neg h5] at h
                    injection h with h'
                    have hst : st' = markMarg st := (congrArg Prod.fst h').symm
                    have hr : r = false := (congrArg Prod.snd h').symm
                    subst hst; subst hr
                    exact ⟨rfl, rfl, fun b hb => rfl, fun hcontra => absurd hcontra (by simp), fun hmono => hmono⟩
                · rw [if_neg h4] at h
                  cases hpb : pm_is_by groups st StyleArg.colorA (some mv) with
                  | error e => rw [hpb] at h; exact Except.noConfusion h
                  | ok st2 =>
                      rw [hpb] at h
                      injection h with h'
                      have hst : st' = markMarg st2 := (congrArg Prod.fst h').symm
                      have hr : r = true := (congrArg Prod.snd h').symm
                      subst hst; subst hr
                      obtain ⟨b1, b2, b3, b4⟩ := pm_is_by_spec groups st StyleArg.colorA (some mv) st2 hpb
                      exact ⟨b1, b2, b3, fun _ => b4, fun _ => b4⟩
          · rw [if_neg h3] at h
            by_cases h6 : (st.args.byArg.getD PyVal.vNone).truthy = true
            · rw [if_pos h6] at h
              by_cases h7 : ((st.args.style StyleArg.colorA).seq.getD PyVal.vNone).truthy = true
              · rw [if_pos h7] at h
                obtain ⟨b1, b2, b3, b4⟩ := handle_color_inherit_spec st st' r h
                exact ⟨b1, b2, b3, fun _ => Or.inr b4, fun _ => Or.inr b4⟩
              · rw [if_neg h7] at h
                cases hbv : st.by_vars with
                | none => rw [hbv] at h; exact Except.noConfusion h
                | some bl =>
                    rw [hbv] at h
                    replace h : (if "color" ∈ bl then handle_color_inherit st
                        else Except.ok (markMarg st, false)) = Except.ok (st', r) := h
                    by_cases h8 : "color" ∈ bl
                    · rw [if_pos h8] at h
                      obtain ⟨b1, b2, b3, b4⟩ := handle_color_inherit_spec st st' r h
                      exact ⟨b1, b2, b3, fun _ => Or.inr b4, fun _ => Or.inr b4⟩
                    · rw [if_neg h8] at h
                      injection h with h'
                      have hst : st' = markMarg st := (congrArg Prod.fst h').symm
                      have hr : r = false := (congrArg Prod.snd h').symm
                      subst hst; subst hr
                      exact ⟨rfl, rfl, fun b hb => rfl, fun hcontra => absurd hcontra (by simp), fun hmono => hmono⟩
            · rw [if_neg h6] at h
              injection h with h'
              have hst : st' = markMarg st := (congrArg Prod.fst h').symm
              have hr : r = false := (congrArg Prod.snd h').symm
              subst hst; subst hr
              exact ⟨rfl, rfl, fun b hb => rfl, fun hcontra => absurd hcontra (by simp), fun hmono => hmono⟩

theorem handle_size_spec (groups : List String) (st : PMState) (val : PyVal)
    (ncols : List String) (st' : PMState) (r : Bool)
    (h : handle_size groups st val ncols = Except.ok (st', r)) :
    st'.args.byArg = st.args.byArg
    ∧ st'.args.byVarsArg = st.args.byVarsArg
    ∧ (∀ b, b ≠ StyleArg.sizeA → st'.args.style b = st.args.style b)
    ∧ (r = true →
        ((st'.args.style StyleArg.sizeA).att.isSome
          ∨ (st'.args.style StyleArg.sizeA).byF.isSome))
    ∧ (((st.args.style StyleArg.sizeA).att.isSome
          ∨ (st.args.style StyleArg.sizeA).byF.isSome) →
        ((st'.args.style StyleArg.sizeA).att.isSome
          ∨ (st'.args.style StyleArg.sizeA).byF.isSome)) := by
  rw [handle_size] at h
  cases hm : (st.args.style StyleArg.sizeA).map with
  | none => rw [hm] at h; exact Except.noConfusion h
  | some mv =>
      rw [hm] at h
      replace h : (if pyEqStr mv "by" || mv.isDict then
          match pm_is_by groups st StyleArg.sizeA none with
          | Except.error e => Except.error e
          | Except.ok st'' => Except.ok (st'', true)
        else if val.truthy then
          match is_single_numeric val ncols with
          | Except.error e => Except.error e
          | Except.ok isn =>
              if isn then Except.ok (st, false)
              else
                match pm_is_by groups st StyleArg.sizeA none with
                | Except.error e => Except.error e
                | Except.ok st'' => Except.ok (st'', true)
        else if (st.args.byArg.getD PyVal.vNone).truthy then
          if ((st.args.style StyleArg.sizeA).seq.getD PyVal.vNone).truthy then
            handle_style_inherit st StyleArg.sizeA
              ((st.args.style StyleArg.sizeA).seq.getD PyVal.vNone)
          else
            match st.by_vars with
            | none =>
                Except.error (PyErr.typeError "argument of type NoneType is not iterable")
            | some bl =>
                if "size" ∈ bl then
                  handle_style_inherit st StyleArg.sizeA
                    ((st.args.style StyleArg.sizeA).seq.getD PyVal.vNone)
                else Except.ok (st, false)
        else Except.ok (st, false)) = Except.ok (st', r) := h
      by_cases h1 : (pyEqStr mv "by" || mv.isDict) = true
      · rw [if_pos h1] at h
        cases hpb : pm_is_by groups st StyleArg.sizeA none with
        | error e => rw [hpb] at h; exact Except.noConfusion h
        | ok st2 =>
            rw [hpb] at h
            injection h with h'
            have hst : st' = st2 := (congrArg Prod.fst h').symm
            obtain ⟨b1, b2, b3, b4⟩ := pm_is_by_spec groups st StyleArg.sizeA none st2 hpb
            rw [hst]
            exact ⟨b1, b2, b3, fun _ => b4, fun _ => b4⟩
      · rw [if_neg h1] at h
        by_cases h3 : val.truthy = true
        · rw [if_pos h3] at h
          cases hisn : is_single_numeric val ncols with
          | error e => rw [hisn] at h; exact Except.noConfusion h
          | ok isn =>
              rw [hisn] at h
              replace h : (if isn then (Except.ok (st, false) : Except PyErr (PMState × Bool))
                  else
                    match pm_is_by groups st StyleArg.sizeA none with
                    | Except.error e => Except.error e
                    | Except.ok st'' => Except.ok (st'', true)) = Except.ok (st', r) := h
              by_cases h4 : isn = true
              · rw [if_pos h4] at h
                injection h with h'
                have hst : st' = st := (congrArg Prod.fst h').symm
                have hr : r = false := (congrArg Prod.snd h').symm
                subst hst; subst hr
                exact ⟨rfl, rfl, fun b hb => rfl, fun hc => absurd hc (by simp), fun hmono => hmono⟩
              · rw [if_neg h4] at h
                cases hpb : pm_is_by groups st StyleArg.sizeA none with
                | error e => rw [hpb] at h; exact Except.noConfusion h
                | ok st2 =>
                    rw [hpb] at h
                    injection h with h'
                    have hst : st' = st2 := (congrArg Prod.fst h').symm
                    obtain ⟨b1, b2, b3, b4⟩ := pm_is_by_spec groups st StyleArg.sizeA none st2 hpb
                    rw [hst]
                    exact ⟨b1, b2, b3, fun _ => b4, fun _ => b4⟩
        · rw [if_neg h3] at h
          by_cases h6 : (st.args.byArg.getD PyVal.vNone).truthy = true
          · rw [if_pos h6] at h
            by_cases h7 : ((st.args.style StyleArg.sizeA).seq.getD PyVal.vNone).truthy = true
            · rw [if_pos h7] at h
              obtain ⟨b1, b2, b3, b4⟩ := handle_style_inherit_spec st StyleArg.sizeA _ st' r h
              exact ⟨b1, b2, b3, fun _ => Or.inr b4, fun _ => Or.inr b4⟩
            · rw [if_neg h7] at h
              cases hbv : st.by_vars with
              | none => rw [hbv] at h; exact Except.noConfusion h
              | some bl =>
                  rw [hbv] at h
                  replace h : (if "size" ∈ bl then
                      handle_style_inherit st StyleArg.sizeA
                        ((st.args.style StyleArg.sizeA).seq.getD PyVal.vNone)
                      else Except.ok (st, false)) = Except.ok (st', r) := h
                  by_cases h8 : "size" ∈ bl
                  · rw [if_pos h8] at h
                    obtain ⟨b1, b2, b3, b4⟩ := handle_style_inherit_spec st StyleArg.sizeA _ st' r h
                    exact ⟨b1, b2, b3, fun _ => Or.inr b4, fun _ => Or.inr b4⟩
                  · rw [if_neg h8] at h
                    injection h with h'
                    have hst : st' = st := (congrArg Prod.fst h').symm
                    have hr : r = false := (congrArg Prod.snd h').symm
                    subst hst; subst hr
                    exact ⟨rfl, rfl, fun b hb => rfl, fun hc => absurd hc (by simp), fun hmono => hmono⟩
          · rw [if_neg h6] at h
            injection h with h'
            have hst : st' = st := (congrArg Prod.fst h').symm
            have hr : r = false := (congrArg Prod.snd h').symm
            subst hst; subst hr
            exact ⟨rfl, rfl, fun b hb => rfl, fun hc => absurd hc (by simp), fun hmono => hmono⟩

theorem handle_shape_spec (groups : List String) (st : PMState) (a : StyleArg)
    (val : PyVal) (st' : PMState) (r : Bool)
    (h : handle_shape groups st a val = Except.ok (st', r)) :
    st'.args.byArg = st.args.byArg
    ∧ st'.args.byVarsArg = st.args.byVarsArg
    ∧ (∀ b, b ≠ a → st'.args.style b = st.args.style b)
    ∧ (r = true →
        ((st'.args.style a).att.isSome ∨ (st'.args.style a).byF.isSome))
    ∧ (((st.args.style a).att.isSome ∨ (st.args.style a).byF.isSome) →
        ((st'.args.style a).att.isSome ∨ (st'.args.style a).byF.isSome)) := by
  rw [handle_shape] at h
  cases hs : (st.args.style a).seq with
  | none => rw [hs] at h; exact Except.noConfusion h
  | some seqv =>
      rw [hs] at h
      replace h : (match (st.args.style a).map with
          | none => (Except.error (PyErr.keyError a.mapName) : Except PyErr (PMState × Bool))
          | some mv =>
              if pyEqStr mv "by" || mv.isDict then
                match pm_is_by groups st a (some mv) with
                | Except.error e => Except.error e
                | Except.ok st'' => Except.ok (st'', true)
              else if pyEqStr mv "identity" then
                match (st.args.style a).arg with
                | none => Except.error (PyErr.keyError a.name)
                | some cv =>
                    Except.ok ({ st with args := st.args.setSlot a (fun s => { s with map := none, arg := none, att := some cv }) }, false)
              else if val.truthy then
                match pm_is_by groups st a (some mv) with
                | Except.error e => Except.error e
                | Except.ok st'' => Except.ok (st'', true)
              else if (st.args.byArg.getD PyVal.vNone).truthy then
                if seqv.truthy then
                  handle_style_inherit st a seqv
                else
                  match st.by_vars with
                  | none =>
                      Except.error (PyErr.typeError "argument of type NoneType is not iterable")
                  | some bl =>
                      if a.name ∈ bl then handle_style_inherit st a seqv
                      else Except.ok (st, false)
              else Except.ok (st, false)) = Except.ok (st', r) := h
      cases hm : (st.args.style a).map with
      | none => rw [hm] at h; exact Except.noConfusion h
      | some mv =>
          rw [hm] at h
          replace h : (if pyEqStr mv "by" || mv.isDict then
              match pm_is_by groups st a (some mv) with
              | Except.error e => Except.error e
              | Except.ok st'' => Except.ok (st'', true)
            else if pyEqStr mv "identity" then
              match (st.args.style a).arg with
              | none => Except.error (PyErr.keyError a.name)
              | some cv =>
                  Except.ok ({ st with args := st.args.setSlot a (fun s => { s with map := none, arg := none, att := some cv }) }, false)
            else if val.truthy then
              match pm_is_by groups st a (some mv) with
              | Except.error e => Except.error e
              | Except.ok st'' => Except.ok (st'', true)
            else if (st.args.byArg.getD PyVal.vNone).truthy then
              if seqv.truthy then
                handle_style_inherit st a seqv
              else
                match st.by_vars with
                | none =>
                    Except.error (PyErr.typeError "argument of type NoneType is not iterable")
                | some bl =>
                    if a.name ∈ bl then handle_style_inherit st a seqv
                    else Except.ok (st, false)
            else Except.ok (st, false)) = Except.ok (st', r) := h
          by_cases h1 : (pyEqStr mv "by" || mv.isDict) = true
          · rw [if_pos h1] at h
            cases hpb : pm_is_by groups st a (some mv) with
            | error e => rw [hpb] at h; exact Except.noConfusion h
            | ok st2 =>
                rw [hpb] at h
                injection h with h'
                have hst : st' = st2 := (congrArg Prod.fst h').symm
                obtain ⟨b1, b2, b3, b4⟩ := pm_is_by_spec groups st a (some mv) st2 hpb
                rw [hst]
                exact ⟨b1, b2, b3, fun _ => b4, fun _ => b4⟩
          · rw [if_neg h1] at h
            by_cases h2 : pyEqStr mv "identity" = true
            · rw [if_pos h2] at h
              cases harg : (st.args.style a).arg with
              | none => rw [harg] at h; exact Except.noConfusion h
              | some cv =>
                  rw [harg] at h
                  injection h with h'
                  have hst : st' = { st with args := st.args.setSlot a (fun s => { s with map := none, arg := none, att := some cv }) } := (congrArg Prod.fst h').symm
                  have hr : r = false := (congrArg Prod.snd h').symm
                  subst hst; subst hr
                  have hatt : ((st.args.setSlot a (fun s => { s with map := none, arg := none, att := some cv })).style a).att.isSome = true := by
                    rw [CallArgs.setSlot_style_same]; rfl
                  refine ⟨rfl, rfl, ?_, ?_, ?_⟩
                  · intro b hb
                    show ((st.args.setSlot a (fun s => { s with map := none, arg := none, att := some cv })).style b) = _
                    exact CallArgs.setSlot_style_ne st.args a b _ hb
                  · intro hc; exact absurd hc (by simp)
                  · intro _; exact Or.inl hatt
            · rw [if_neg h2] at h
              by_cases h3 : val.truthy = true
              · rw [if_pos h3] at h
                cases hpb : pm_is_by groups st a (some mv) with
                | error e => rw [hpb] at h; exact Except.noConfusion h
                | ok st2 =>
                    rw [hpb] at h
                    injection h with h'
                    have hst : st' = st2 := (congrArg Prod.fst h').symm
                    obtain ⟨b1, b2, b3, b4⟩ := pm_is_by_spec groups st a (some mv) st2 hpb
                    rw [hst]
                    exact ⟨b1, b2, b3, fun _ => b4, fun _ => b4⟩
              · rw [if_neg h3] at h
                by_cases h6 : (st.args.byArg.getD PyVal.vNone).truthy = true
                · rw [if_pos h6] at h
                  by_cases h7 : seqv.truthy = true
                  · rw [if_pos h7] at h
                    obtain ⟨b1, b2, b3, b4⟩ := handle_style_inherit_spec st a seqv st' r h
                    exact ⟨b1, b2, b3, fun _ => Or.inr b4, fun _ => Or.inr b4⟩
                  · rw [if_neg h7] at h
                    cases hbv : st.by_vars with
                    | none => rw [hbv] at h; exact Except.noConfusion h
                    | some bl =>
                        rw [hbv] at h
                        replace h : (if a.name ∈ bl then handle_style_inherit st a seqv
                            else Except.ok (st, false)) = Except.ok (st', r) := h
                        by_cases h8 : a.name ∈ bl
                        · rw [if_pos h8] at h
                          obtain ⟨b1, b2, b3, b4⟩ := handle_style_inherit_spec st a seqv st' r h
                          exact ⟨b1, b2, b3, fun _ => Or.inr b4, fun _ => Or.inr b4⟩
                        · rw [if_neg h8] at h
                          injection h with h'
                          have hst : st' = st := (congrArg Prod.fst h').symm
                          have hr : r = false := (congrArg Prod.snd h').symm
                          subst hr
                          rw [hst]
                          exact ⟨rfl, rfl, fun b hb => rfl, fun hc => absurd hc (by simp), fun hmono => hmono⟩
                · rw [if_neg h6] at h
                  injection h with h'
                  have hst : st' = st := (congrArg Prod.fst h').symm
                  have hr : r = false := (congrArg Prod.snd h').symm
                  subst hr
                  rw [hst]
                  exact ⟨rfl, rfl, fun b hb => rfl, fun hc => absurd hc (by simp), fun hmono => hmono⟩

theorem pm_handle_plot_by_arg_spec (groups : List String) (st : PMState)
    (a : StyleArg) (val : PyVal) (st' : PMState) (r : Bool)
    (h : pm_handle_plot_by_arg groups st a val = Except.ok (st', r)) :
    st'.args.byArg = st.args.byArg
    ∧ st'.args.byVarsArg = st.args.byVarsArg
    ∧ (∀ b, b ≠ a → st'.args.style b = st.args.style b)
    ∧ (r = true →
        ((st'.args.style a).att.isSome ∨ (st'.args.style a).byF.isSome))
    ∧ (((st.args.style a).att.isSome ∨ (st.args.style a).byF.isSome) →
        ((st'.args.style a).att.isSome ∨ (st'.args.style a).byF.isSome)) := by
  rw [pm_handle_plot_by_arg] at h
  cases hnc : pm_numeric_cols st with
  | error e => rw [hnc] at h; exact Except.noConfusion h
  | ok ncols =>
      rw [hnc] at h
      cases a with
      | colorA => exact handle_color_spec groups st val ncols st' r h
      | sizeA => exact handle_size_spec groups st val ncols st' r h
      | patternShapeA => exact handle_shape_spec groups st StyleArg.patternShapeA val st' r h
      | symbolA => exact handle_shape_spec groups st StyleArg.symbolA val st' r h
      | lineDashA => exact handle_shape_spec groups st StyleArg.lineDashA val st' r h
      | widthA => exact handle_shape_spec groups st StyleArg.widthA val st' r h

theorem loop_style_record_log (acc : LoopAcc) (a : StyleArg) (st2 : PMState)
    (resolved : Bool) (acc' : LoopAcc)
    (h : loop_style_record acc a st2 resolved = Except.ok acc') :
    acc'.st = st2
    ∧ acc'.log = (if resolved then acc.log ++ [a] else acc.log) := by
  rw [loop_style_record] at h
  replace h : (if ((st2.args.style a).byF.getD PyVal.vNone).truthy then
      match pcolsInsert acc.pcols ((st2.args.style a).byF.getD PyVal.vNone) with
      | Except.error e => Except.error e
      | Except.ok pcols' =>
          Except.ok (⟨st2, acc.pmap ++ [(a, (st2.args.style a).byF.getD PyVal.vNone)], pcols', if resolved then acc.log ++ [a] else acc.log⟩ : LoopAcc)
    else Except.ok (⟨st2, acc.pmap, acc.pcols, if resolved then acc.log ++ [a] else acc.log⟩ : LoopAcc)) = Except.ok acc' := h
  by_cases hcols : ((st2.args.style a).byF.getD PyVal.vNone).truthy = true
  · rw [if_pos hcols] at h
    cases hp : pcolsInsert acc.pcols ((st2.args.style a).byF.getD PyVal.vNone) with
    | error e => rw [hp] at h; exact Except.noConfusion h
    | ok pcols2 =>
        rw [hp] at h
        injection h with h'
        rw [← h']
        exact ⟨rfl, rfl⟩
  · rw [if_neg hcols] at h
    injection h with h'
    rw [← h']
    exact ⟨rfl, rfl⟩

theorem loop_style_step_inv (groups : List String) (acc acc' : LoopAcc)
    (a : StyleArg) (h : loop_style_step groups acc a = Except.ok acc')
    (hinv : ∀ b ∈ acc.log,
      (acc.st.args.style b).att.isSome = true
        ∨ (acc.st.args.style b).byF.isSome = true) :
    ∀ b ∈ acc'.log,
      (acc'.st.args.style b).att.isSome = true
        ∨ (acc'.st.args.style b).byF.isSome = true := by
  rw [loop_style_step] at h
  cases hval : (acc.st.args.style a).arg with
  | none =>
      rw [hval] at h
      injection h with h'
      rw [← h']
      exact hinv
  | some val =>
      rw [hval] at h
      replace h : (if val.truthy || (acc.st.args.byArg.getD PyVal.vNone).truthy then
          match pm_handle_plot_by_arg groups acc.st a val with
          | Except.error e => Except.error e
          | Except.ok pr => loop_style_record acc a pr.1 pr.2
        else Except.ok acc) = Except.ok acc' := h
      by_cases hcond : (val.truthy || (acc.st.args.byArg.getD PyVal.vNone).truthy) = true
      · rw [if_pos hcond] at h
        cases hh : pm_handle_plot_by_arg groups acc.st a val with
        | error e => rw [hh] at h; exact Except.noConfusion h
        | ok pr =>
            rw [hh] at h
            obtain ⟨hst, hlog⟩ := loop_style_record_log acc a pr.1 pr.2 acc' h
            obtain ⟨b1, b2, b3, b4, b5⟩ :=
              pm_handle_plot_by_arg_spec groups acc.st a val pr.1 pr.2 (by rw [hh])
            intro b hb
            rw [hlog] at hb
            rw [hst]
            by_cases hba : b = a
            · subst hba
              by_cases hmem : b ∈ acc.log
              · exact b5 (hinv b hmem)
              · cases hres : pr.2 with
                | true => exact b4 hres
                | false =>
                    rw [hres] at hb
                    replace hb : b ∈ acc.log := hb
                    exact absurd hb hmem
            · have hbmem : b ∈ acc.log := by
                cases hres : pr.2 with
                | false =>
                    rw [hres] at hb
                    exact hb
                | true =>
                    rw [hres] at hb
                    replace hb : b ∈ acc.log ++ [a] := hb
                    rcases List.mem_append.mp hb with h' | h'
                    · exact h'
                    · exact absurd (List.mem_singleton.mp h') hba
              rw [b3 b hba]
              exact hinv b hbmem
      · rw [if_neg hcond] at h
        injection h with h'
        rw [← h']
        exact hinv

theorem loop_styles_inv (groups : List String) (l : List StyleArg) :
    ∀ acc acc', loop_styles groups acc l = Except.ok acc' →
    (∀ b ∈ acc.log,
      (acc.st.args.style b).att.isSome = true
        ∨ (acc.st.args.style b).byF.isSome = true) →
    ∀ b ∈ acc'.log,
      (acc'.st.args.style b).att.isSome = true
        ∨ (acc'.st.args.style b).byF.isSome = true := by
  induction l with
  | nil =>
      intro acc acc' h hinv
      rw [loop_styles] at h
      injection h with h'
      rw [← h']
      exact hinv
  | cons a rest ih =>
      intro acc acc' h hinv
      rw [loop_styles] at h
      cases hs : loop_style_step groups acc a with
      | error e => rw [hs] at h; exact Except.noConfusion h
      | ok acc1 =>
          rw [hs] at h
          exact ih acc1 acc' h (loop_style_step_inv groups acc acc1 a hs hinv)

theorem loop_facet_step_fields (acc acc' : LoopAcc) (isRow : Bool)
    (h : loop_facet_step acc isRow = Except.ok acc') :
    acc'.st.args = acc.st.args ∧ acc'.log = acc.log := by
  cases isRow with
  | true =>
      rw [loop_facet_step] at h
      replace h : (match acc.st.args.facet_row with
          | none => (Except.ok acc : Except PyErr LoopAcc)
          | some v =>
              if v.truthy then
                match pcolsInsert acc.pcols v with
                | Except.error e => Except.error e
                | Except.ok pcols' =>
                    Except.ok (⟨{ acc.st with facet_row := some v }, acc.pmap, pcols', acc.log⟩ : LoopAcc)
              else Except.ok acc) = Except.ok acc' := h
      cases hv : acc.st.args.facet_row with
      | none => rw [hv] at h; injection h with h'; rw [← h']; exact ⟨rfl, rfl⟩
      | some v =>
          rw [hv] at h
          replace h : (if v.truthy then
              match pcolsInsert acc.pcols v with
              | Except.error e => Except.error e
              | Except.ok pcols' =>
                  Except.ok (⟨{ acc.st with facet_row := some v }, acc.pmap, pcols', acc.log⟩ : LoopAcc)
            else Except.ok acc) = Except.ok acc' := h
          by_cases ht : v.truthy = true
          · rw [if_pos ht] at h
            cases hp : pcolsInsert acc.pcols v with
            | error e => rw [hp] at h; exact Except.noConfusion h
            | ok pcols2 =>
                rw [hp] at h
                injection h with h'
                rw [← h']
                exact ⟨rfl, rfl⟩
          · rw [if_neg ht] at h
            injection h with h'
            rw [← h']
            exact ⟨rfl, rfl⟩
  | false =>
      rw [loop_facet_step] at h
      replace h : (match acc.st.args.facet_col with
          | none => (Except.ok acc : Except PyErr LoopAcc)
          | some v =>
              if v.truthy then
                match pcolsInsert acc.pcols v with
                | Except.error e => Except.error e
                | Except.ok pcols' =>
                    Except.ok (⟨{ acc.st with facet_col := some v }, acc.pmap, pcols', acc.log⟩ : LoopAcc)
              else Except.ok acc) = Except.ok acc' := h
      cases hv : acc.st.args.facet_col with
      | none => rw [hv] at h; injection h with h'; rw [← h']; exact ⟨rfl, rfl⟩
      | some v =>
          rw [hv] at h
          replace h : (if v.truthy then
              match pcolsInsert acc.pcols v with
              | Except.error e => Except.error e
              | Except.ok pcols' =>
                  Except.ok (⟨{ acc.st with facet_col := some v }, acc.pmap, pcols', acc.log⟩ : LoopAcc)
            else Except.ok acc) = Except.ok acc' := h
          by_cases ht : v.truthy = true
          · rw [if_pos ht] at h
            cases hp : pcolsInsert acc.pcols v with
            | error e => rw [hp] at h; exact Except.noConfusion h
            | ok pcols2 =>
                rw [hp] at h
                injection h with h'
                rw [← h']
                exact ⟨rfl, rfl⟩
          · rw [if_neg ht] at h
            injection h with h'
            rw [← h']
            exact ⟨rfl, rfl⟩

theorem univariate_init_args_fields (c c' : CallArgs)
    (h : univariate_init_args c = Except.ok c') : c'.style = c.style := by
  rw [univariate_init_args] at h
  cases ht : c.table with
  | none => rw [ht] at h; exact Except.noConfusion h
  | some tv =>
      rw [ht] at h
      replace h : (match c.x with
          | none => (Except.error (PyErr.keyError "x") : Except PyErr CallArgs)
          | some xv =>
              if (if xv.truthy then "x" else "y") = "x" then
                Except.ok ({ c with table := some tv, orientation := some (PyVal.vStr (if (if xv.truthy then "x" else "y") = "y" then "h" else "v")) } : CallArgs)
              else
                match c.y with
                | none => Except.error (PyErr.keyError "y")
                | some _ =>
                    Except.ok ({ c with table := some tv, orientation := some (PyVal.vStr (if (if xv.truthy then "x" else "y") = "y" then "h" else "v")) } : CallArgs)) = Except.ok c' := h
      cases hx : c.x with
      | none => rw [hx] at h; exact Except.noConfusion h
      | some xv =>
          rw [hx] at h
          replace h : (if (if xv.truthy then "x" else "y") = "x" then
              Except.ok ({ c with table := some tv, x := some xv, orientation := some (PyVal.vStr (if (if xv.truthy then "x" else "y") = "y" then "h" else "v")) } : CallArgs)
            else
              match c.y with
              | none => (Except.error (PyErr.keyError "y") : Except PyErr CallArgs)
              | some _ =>
                  Except.ok ({ c with table := some tv, x := some xv, orientation := some (PyVal.vStr (if (if xv.truthy then "x" else "y") = "y" then "h" else "v")) } : CallArgs)) = Except.ok c' := h
          by_cases hvar : (if xv.truthy then "x" else "y") = "x"
          · rw [if_pos hvar] at h
            injection h with h'
            rw [← h']
          · rw [if_neg hvar] at h
            cases hy : c.y with
            | none => rw [hy] at h; exact Except.noConfusion h
            | some yv =>
                rw [hy] at h
                injection h with h'
                rw [← h']

theorem pm_prepare_preprocess_fields (groups : List String) (c cPrep : CallArgs)
    (h : pm_prepare_preprocess groups c = Except.ok cPrep) :
    cPrep.style = c.style := by
  rw [pm_prepare_preprocess] at h
  by_cases h1 : "preprocess_hist" ∈ groups
  · rw [if_pos h1] at h; exact Except.noConfusion h
  · rw [if_neg h1] at h
    by_cases h2 : "preprocess_freq" ∈ groups
    · rw [if_pos h2] at h
      exact univariate_init_args_fields c cPrep h
    · rw [if_neg h2] at h
      injection h with h'
      rw [← h']

theorem composite_step_resolved (keyRows : List Row) (st : PMState)
    (e : StyleArg × PyVal) (st' : PMState)
    (h : composite_step keyRows st e = Except.ok st') :
    st'.args.byArg = st.args.byArg
    ∧ st'.args.byVarsArg = st.args.byVarsArg
    ∧ (∀ b, b ≠ e.1 → st'.args.style b = st.args.style b)
    ∧ ∃ ls mp ks, (st'.args.style e.1).seq
        = some (PyVal.vDictS [("ls", ls), ("map", mp), ("keys", ks)]) := by
  rw [composite_step] at h
  cases hs : (st.args.style e.1).seq with
  | none => rw [hs] at h; exact Except.noConfusion h
  | some seqv =>
      rw [hs] at h
      cases hm : (st.args.style e.1).map with
      | none => rw [hm] at h; exact Except.noConfusion h
      | some mapv =>
          rw [hm] at h
          cases hbf : (st.args.style e.1).byF with
          | none => rw [hbf] at h; exact Except.noConfusion h
          | some bv =>
              rw [hbf] at h
              injection h with h'
              subst h'
              refine ⟨rfl, rfl, ?_, ?_⟩
              · intro b hb
                show ((st.args.setSlot e.1 (fun s => { s with seq := some (PyVal.vDictS [("ls", seqv), ("map", mapv), ("keys", keysOf keyRows e.2)]), byF := none, map := none })).style b) = _
                exact CallArgs.setSlot_style_ne st.args e.1 b _ hb
              · refine ⟨seqv, mapv, keysOf keyRows e.2, ?_⟩
                show (((st.args.setSlot e.1 (fun s => { s with seq := some (PyVal.vDictS [("ls", seqv), ("map", mapv), ("keys", keysOf keyRows e.2)]), byF := none, map := none })).style e.1).seq) = _
                rw [CallArgs.setSlot_style_same]

theorem composite_fold_resolved (keyRows : List Row)
    (l : List (StyleArg × PyVal)) :
    ∀ st st', composite_fold keyRows st l = Except.ok st' →
    ∀ a : StyleArg, resolvedOk st.args a → resolvedOk st'.args a := by
  induction l with
  | nil =>
      intro st st' h a ha
      rw [composite_fold] at h
      injection h with h'
      rw [← h']
      exact ha
  | cons e rest ih =>
      intro st st' h a ha
      rw [composite_fold] at h
      cases hcs : composite_step keyRows st e with
      | error e' => rw [hcs] at h; exact Except.noConfusion h
      | ok st1 =>
          rw [hcs] at h
          apply ih st1 st' h
          obtain ⟨b1, b2, b3, b4⟩ := composite_step_resolved keyRows st e st1 hcs
          by_cases hae : a = e.1
          · subst hae
            exact Or.inr (Or.inr b4)
          · unfold resolvedOk at ha ⊢
            rw [b3 a hae]
            exact ha

theorem pp_partition_path_spec (st4 : PMState) (logv : List StyleArg)
    (pmap : List (StyleArg × PyVal)) (kc : List String)
    (cs : List (Row × Table)) (res : ProcResult)
    (h : pp_partition_path st4 logv pmap kc cs = Except.ok res) :
    res.state.args.byArg = none ∧ res.state.args.byVarsArg = none
    ∧ res.byGroupLog = logv
    ∧ ∀ a : StyleArg, resolvedOk st4.args a → resolvedOk res.state.args a := by
  rw [pp_partition_path] at h
  cases hcf : composite_fold (cs.map Prod.fst) st4 pmap with
  | error e => rw [hcf] at h; exact Except.noConfusion h
  | ok st5 =>
      rw [hcf] at h
      replace h : (match st5.args.byArg with
          | none => (Except.error (PyErr.keyError "by") : Except PyErr ProcResult)
          | some _ =>
              Except.ok ⟨PyVal.vPTable kc cs,
                { st5 with args := { st5.args with byArg := none, byVarsArg := none } },
                logv⟩) = Except.ok res := h
      cases hby : st5.args.byArg with
      | none => rw [hby] at h; exact Except.noConfusion h
      | some bv =>
          rw [hby] at h
          injection h with h'
          subst h'
          refine ⟨rfl, rfl, rfl, ?_⟩
          intro a ha
          have h5 := composite_fold_resolved (cs.map Prod.fst) pmap st4 st5 hcf a ha
          unfold resolvedOk at h5 ⊢
          exact h5

theorem pp_after_loop_spec (groups : List String)
    (pt0 : Option (List String × List (Row × Table))) (acc3 : LoopAcc)
    (res : ProcResult) (h : pp_after_loop groups pt0 acc3 = Except.ok res) :
    res.state.args.byArg = none ∧ res.state.args.byVarsArg = none
    ∧ res.byGroupLog = acc3.log
    ∧ ∀ a : StyleArg,
        ((acc3.st.args.style a).att.isSome = true
          ∨ (acc3.st.args.style a).byF.isSome = true) →
        resolvedOk res.state.args a := by
  rw [pp_after_loop] at h
  cases hprep : pm_prepare_preprocess groups acc3.st.args with
  | error e => rw [hprep] at h; exact Except.noConfusion h
  | ok cPrep =>
      rw [hprep] at h
      have p1 : cPrep.style = acc3.st.args.style :=
        pm_prepare_preprocess_fields groups acc3.st.args cPrep hprep
      replace h : (if acc3.pcols.isEmpty then
          match cPrep.table with
          | none => (Except.error (PyErr.keyError "table") : Except PyErr ProcResult)
          | some rtv =>
              Except.ok ⟨rtv,
                { acc3.st with args := { cPrep with byArg := none, byVarsArg := none } },
                acc3.log⟩
        else
          match (match pt0 with
                 | some p => Except.ok p
                 | none =>
                     match toPartitionCols acc3.pcols with
                     | Except.error e => Except.error e
                     | Except.ok colStrs =>
                         match cPrep.table with
                         | some (PyVal.vTable t) =>
                             Except.ok (colStrs, t.partition_by colStrs)
                         | some _ =>
                             Except.error (PyErr.attributeError
                               "object has no attribute partition_by")
                         | none => Except.error (PyErr.keyError "table")) with
          | Except.error e => Except.error e
          | Except.ok (kc, cs) =>
              pp_partition_path { acc3.st with args := cPrep } acc3.log acc3.pmap kc cs)
        = Except.ok res := h
      by_cases hemp : acc3.pcols.isEmpty = true
      · rw [if_pos hemp] at h
        cases htab : cPrep.table with
        | none => rw [htab] at h; exact Except.noConfusion h
        | some rtv =>
            rw [htab] at h
            injection h with h'
            subst h'
            refine ⟨rfl, rfl, rfl, ?_⟩
            intro a ha
            show (cPrep.style a).att.isSome = true
              ∨ (cPrep.style a).byF.isSome = true
              ∨ ∃ ls mp ks, (cPrep.style a).seq
                  = some (PyVal.vDictS [("ls", ls), ("map", mp), ("keys", ks)])
            rw [p1]
            rcases ha with h1 | h1
            · exact Or.inl h1
            · exact Or.inr (Or.inl h1)
      · rw [if_neg hemp] at h
        cases hsplit : (match pt0 with
            | some p => Except.ok p
            | none =>
                match toPartitionCols acc3.pcols with
                | Except.error e => Except.error e
                | Except.ok colStrs =>
                    match cPrep.table with
                    | some (PyVal.vTable t) =>
                        Except.ok (colStrs, t.partition_by colStrs)
                    | some _ =>
                        Except.error (PyErr.attributeError
                          "object has no attribute partition_by")
                    | none => Except.error (PyErr.keyError "table")) with
        | error e => rw [hsplit] at h; exact Except.noConfusion h
        | ok p =>
            rw [hsplit] at h
            obtain ⟨kc, cs⟩ := p
            replace h : pp_partition_path { acc3.st with args := cPrep } acc3.log acc3.pmap kc cs = Except.ok res := h
            obtain ⟨q1, q2, q3, q4⟩ :=
              pp_partition_path_spec { acc3.st with args := cPrep } acc3.log acc3.pmap kc cs res h
            refine ⟨q1, q2, q3, ?_⟩
            intro a ha
            apply q4
            show (cPrep.style a).att.isSome = true
              ∨ (cPrep.style a).byF.isSome = true
              ∨ ∃ ls mp ks, (cPrep.style a).seq
                  = some (PyVal.vDictS [("ls", ls), ("map", mp), ("keys", ks)])
            rw [p1]
            rcases ha with h1 | h1
            · exact Or.inl h1
            · exact Or.inr (Or.inl h1)

/-- C9: for every run of `process_partitions` that reaches the draw stage
(returns successfully), the returned argument mapping contains no unresolved
grouping directive keys: `by` and `by_vars` have been removed, and every
style argument that was resolved to by-group styling during the run has been
renamed to an `attached_` key or an `_by` key, or replaced by its composite
`{ls, map, keys}` record. -/
theorem process_partitions_resolves_directives (groups : List String)
    (st0 : PMState) (res : ProcResult)
    (h : process_partitions groups st0 = Except.ok res) :
    res.state.args.byArg = none ∧ res.state.args.byVarsArg = none
    ∧ ∀ a ∈ res.byGroupLog, resolvedOk res.state.args a := by
  rw [process_partitions] at h
  cases hbv : (if (st0.args.byVarsArg.getD PyVal.vNone).truthy then
      (byVarsSet (st0.args.byVarsArg.getD PyVal.vNone)).map some
    else Except.ok st0.by_vars) with
  | error e => rw [hbv] at h; exact Except.noConfusion h
  | ok byv =>
      rw [hbv] at h
      replace h : (match st0.args.table with
          | none => (Except.error (PyErr.keyError "table") : Except PyErr ProcResult)
          | some tv =>
              match loop_styles groups ⟨{ st0 with by_vars := byv, args := { st0.args with byVarsArg := none } }, [], [], []⟩ styleOrder with
              | Except.error e => Except.error e
              | Except.ok acc1 =>
              match loop_facet_step acc1 true with
              | Except.error e => Except.error e
              | Except.ok acc2 =>
              match loop_facet_step acc2 false with
              | Except.error e => Except.error e
              | Except.ok acc3 =>
                  pp_after_loop groups
                    (pt0Of tv) acc3) = Except.ok res := h
      cases htv : st0.args.table with
      | none => rw [htv] at h; exact Except.noConfusion h
      | some tv =>
          rw [htv] at h
          cases hls : loop_styles groups ⟨{ st0 with by_vars := byv, args := { st0.args with byVarsArg := none } }, [], [], []⟩ styleOrder with
          | error e => rw [hls] at h; exact Except.noConfusion h
          | ok acc1 =>
              rw [hls] at h
              replace h : (match loop_facet_step acc1 true with
                  | Except.error e => (Except.error e : Except PyErr ProcResult)
                  | Except.ok acc2 =>
                  match loop_facet_step acc2 false with
                  | Except.error e => Except.error e
                  | Except.ok acc3 =>
                      pp_after_loop groups
                        (pt0Of tv) acc3) = Except.ok res := h
              cases hf1 : loop_facet_step acc1 true with
              | error e => rw [hf1] at h; exact Except.noConfusion h
              | ok acc2 =>
                  rw [hf1] at h
                  replace h : (match loop_facet_step acc2 false with
                      | Except.error e => (Except.error e : Except PyErr ProcResult)
                      | Except.ok acc3 =>
                          pp_after_loop groups
                            (pt0Of tv) acc3) = Except.ok res := h
                  cases hf2 : loop_facet_step acc2 false with
                  | error e => rw [hf2] at h; exact Except.noConfusion h
                  | ok acc3 =>
                      rw [hf2] at h
                      replace h : pp_after_loop groups
                          (pt0Of tv) acc3 = Except.ok res := h
                      obtain ⟨q1, q2, q3, q4⟩ := pp_after_loop_spec groups
                        (pt0Of tv) acc3 res h
                      refine ⟨q1, q2, ?_⟩
                      intro a ha
                      rw [q3] at ha
                      apply q4
                      have hinv1 : ∀ b ∈ acc1.log,
                          (acc1.st.args.style b).att.isSome = true
                            ∨ (acc1.st.args.style b).byF.isSome = true :=
                        loop_styles_inv groups styleOrder
                          ⟨{ st0 with by_vars := byv, args := { st0.args with byVarsArg := none } }, [], [], []⟩
                          acc1 hls (fun b hb => absurd hb (List.not_mem_nil b))
                      obtain ⟨f1a, f1l⟩ := loop_facet_step_fields acc1 acc2 true hf1
                      obtain ⟨f2a, f2l⟩ := loop_facet_step_fields acc2 acc3 false hf2
                      rw [f2l, f1l] at ha
                      rw [f2a, f1a]
                      exact hinv1 a ha

def c9WitnessTable : Table :=
  { schema := [("Cat", "string"), ("Val", "int")],
    rows := [[("Cat", Cell.cStr "a"), ("Val", Cell.cInt 1)],
             [("Cat", Cell.cStr "b"), ("Val", Cell.cInt 2)]] }

def c9WitnessSlots : StyleArg → StyleSlots :=
  fun a =>
    match a with
    | StyleArg.colorA =>
        { arg := some (PyVal.vStr "Cat"),
          seq := some (PyVal.vList [PyVal.vStr "red"]),
          map := some (PyVal.vStr "by"),
          att := none, byF := none }
    | _ => { arg := none, seq := none, map := none, att := none, byF := none }

def c9WitnessState : PMState :=
  { args :=
      { table := some (PyVal.vTable c9WitnessTable),
        x := some (PyVal.vStr "Val"), y := none,
        byArg := some (PyVal.vStr "Cat"), byVarsArg := none,
        color_continuous_scale := none, colors := none,
        facet_row := none, facet_col := none, orientation := none,
        current_partition := none,
        style := c9WitnessSlots, extras := [] },
    by_vars := some ["color"], always_attached := [],
    facet_row := none, facet_col := none, marg_color := none }

theorem process_partitions_resolves_directives_witness :
    ∃ res, process_partitions [] c9WitnessState = Except.ok res
      ∧ res.state.args.byArg = none ∧ res.state.args.byVarsArg = none
      ∧ ∀ a ∈ res.byGroupLog, resolvedOk res.state.args a :=
  ⟨_, rfl, process_partitions_resolves_directives [] c9WitnessState _ rfl⟩

/-! ### The figure-generation loop (C2)
(PartitionManager.partition_generator lines 361-384 and
PartitionManager.create_figure lines 386-436) -/

/-- A figure as seen by the loop: the only attribute the loop reads back is
`fig.trace_generator`.  The generator object itself is opaque (type `τ`). -/
structure DhFig (τ : Type) where
  trace_generator : τ

/-- Embedding of `partition_generator` in the partitioned case: the
constituents are pushed through `Preprocesser.preprocess_partitioned_tables`
and zipped with the per-constituent partition keys
(`current_partition_generator`); each pair becomes the `args` of one yield
(`args["current_partition"]`, `args["table"]`). -/
def partition_generator_list (p : Option ActivePreproc)
    (pt : List (Row × Table)) (column : Option String) :
    Except PyErr (List (Row × PPOut)) :=
  match preprocesser_dispatch p (pt.map Prod.snd) column with
  | Except.error e => Except.error e
  | Except.ok outs => Except.ok ((pt.map Prod.fst).zip outs)

/-- The `for i, args in enumerate(self.partition_generator())` loop of
`create_figure`, recording each `draw_figure(call_args=args,
trace_generator=trace_generator)` invocation: `trace_generator` starts as
`None` and, while falsy, is replaced by the figure's generator after the
draw (a generator object is truthy, so the first figure's generator is kept
from then on). -/
def create_figure_calls {α τ : Type} (draw : α → Option τ → DhFig τ) :
    Option τ → List α → List (α × Option τ)
  | _, [] => []
  | tg, a :: rest =>
      let fig := draw a tg
      (a, tg) :: create_figure_calls draw
        (match tg with
         | none => some fig.trace_generator
         | some g => some g) rest

/-- `create_figure` over a partitioned table, as the sequence of draw
invocations it performs (each paired with the trace generator it was
given). -/
def create_figure_c2 {τ : Type} (p : Option ActivePreproc)
    (pt : List (Row × Table)) (column : Option String)
    (draw : Row × PPOut → Option τ → DhFig τ) :
    Except PyErr (List ((Row × PPOut) × Option τ)) :=
  match partition_generator_list p pt column with
  | Except.error e => Except.error e
  | Except.ok argsList => Except.ok (create_figure_calls draw none argsList)

theorem preprocesser_dispatch_length (p : Option ActivePreproc)
    (tables : List Table) (column : Option String) (outs : List PPOut)
    (h : preprocesser_dispatch p tables column = Except.ok outs) :
    outs.length = tables.length := by
  cases p with
  | none =>
      rw [preprocesser_dispatch] at h
      injection h with h'
      rw [← h', List.length_map]
  | some ap =>
      cases ap with
      | freqP st => rw [preprocesser_dispatch] at h; exact Except.noConfusion h
      | timeP xs xe xd =>
          rw [preprocesser_dispatch] at h
          injection h with h'
          rw [← h', List.length_map]

/-- C2 (corrected, positive half): partitioned on a column whose distinct
keys are exactly `k1, k2, k3`, for every call whose preprocessing dispatch
succeeds (no active preprocessor, or the time preprocessor - the frequency
and histogram preprocessors fail before any draw), the loop of
`create_figure` invokes the draw callback exactly three times - once per
constituent sub-table, in key order - the first invocation with no trace
generator and the second and third with exactly the trace generator taken
from the figure returned by the first invocation. -/
theorem create_figure_three_groups {τ : Type} (p : Option ActivePreproc)
    (t : Table) (col : String) (k1 k2 k3 : Row)
    (hkeys : partitionKeys t [col] = [k1, k2, k3])
    (column : Option String) (outs : List PPOut)
    (hdisp : preprocesser_dispatch p ((t.partition_by [col]).map Prod.snd) column
      = Except.ok outs)
    (draw : Row × PPOut → Option τ → DhFig τ) :
    ∃ o1 o2 o3 : PPOut,
      outs = [o1, o2, o3]
      ∧ create_figure_c2 p (t.partition_by [col]) column draw
        = Except.ok
            [((k1, o1), none),
             ((k2, o2), some ((draw (k1, o1) none).trace_generator)),
             ((k3, o3), some ((draw (k1, o1) none).trace_generator))] := by
  have hlen : outs.length = 3 := by
    rw [preprocesser_dispatch_length p ((t.partition_by [col]).map Prod.snd) column outs hdisp,
      List.length_map, Table.partition_by, hkeys]
    rfl
  obtain ⟨o1, o2, o3, houts⟩ := List.length_eq_three.mp hlen
  subst houts
  refine ⟨o1, o2, o3, rfl, ?_⟩
  rw [create_figure_c2, partition_generator_list, hdisp, Table.partition_by, hkeys]
  rfl

/-- The concrete table of the C2 witness and counterexample: partitioned on
`Cat`, which has exactly three distinct values `a, b, c`. -/
def c2Table : Table :=
  { schema := [("Cat", "string"), ("Val", "int")],
    rows := [[("Cat", Cell.cStr "a"), ("Val", Cell.cInt 1)],
             [("Cat", Cell.cStr "b"), ("Val", Cell.cInt 2)],
             [("Cat", Cell.cStr "c"), ("Val", Cell.cInt 3)]] }

theorem create_figure_three_groups_witness :
    ∃ o1 o2 o3 : PPOut,
      ((c2Table.partition_by ["Cat"]).map Prod.snd).map
          (fun t => (Sum.inr (time_preprocess "S" "E" "D" t) : PPOut))
        = [o1, o2, o3]
      ∧ create_figure_c2 (some (ActivePreproc.timeP "S" "E" "D"))
          (c2Table.partition_by ["Cat"]) none (fun _ _ => (⟨5⟩ : DhFig Nat))
        = Except.ok
            [(([("Cat", Cell.cStr "a")], o1), none),
             (([("Cat", Cell.cStr "b")], o2),
               some (((fun (_ : Row × PPOut) (_ : Option Nat) => (⟨5⟩ : DhFig Nat))
                 ([("Cat", Cell.cStr "a")], o1) none).trace_generator)),
             (([("Cat", Cell.cStr "c")], o3),
               some (((fun (_ : Row × PPOut) (_ : Option Nat) => (⟨5⟩ : DhFig Nat))
                 ([("Cat", Cell.cStr "a")], o1) none).trace_generator))] :=
  create_figure_three_groups (some (ActivePreproc.timeP "S" "E" "D")) c2Table "Cat"
    [("Cat", Cell.cStr "a")] [("Cat", Cell.cStr "b")] [("Cat", Cell.cStr "c")]
    rfl none
    (((c2Table.partition_by ["Cat"]).map Prod.snd).map
      (fun t => (Sum.inr (time_preprocess "S" "E" "D" t) : PPOut)))
    rfl (fun _ _ => (⟨5⟩ : DhFig Nat))

/-- C2 (counterexample to the frozen claim): for a frequency-preprocessed
call over the same table partitioned on a column with exactly three distinct
values, `create_figure` raises the dispatcher arity `TypeError` before any
draw - the claim's "exactly 3 draw invocations" fails (there are none). -/
theorem create_figure_freq_counterexample :
    partitionKeys c2Table ["Cat"]
      = [[("Cat", Cell.cStr "a")], [("Cat", Cell.cStr "b")],
         [("Cat", Cell.cStr "c")]]
    ∧ create_figure_c2 (some (ActivePreproc.freqP ⟨c2Table, "x", "y"⟩))
        (c2Table.partition_by ["Cat"]) (some "Cat")
        (fun _ _ => (⟨5⟩ : DhFig Nat))
      = Except.error (PyErr.typeError
          "preprocess_partitioned_tables takes 2 positional arguments but 3 were given") :=
  ⟨rfl, rfl⟩
